import Mathlib

/-!
Verification of the aptmirs mirroring pipeline against its specification.

Each definition below is a shallow embedding of a function or data type of
the aptmirs source tree (file and symbol named in the doc comments).
Machine integers are modelled as `Nat` with explicit wrap-around (`% 2 ^ 64`)
where Rust's release-mode semantics wraps; fallible Rust code returns
`Except`/`Option`, and a Rust `panic!`/`expect` is modelled as `Option.none`
of an outer `Option` layer.  External crates (hash primitives, `pathdiff`)
are taken as parameters, mirroring the spec's treatment of external
collaborators as opaque contracts.
-/

set_option maxRecDepth 8000

namespace Aptmirs

/-! ## Character-list helpers

Small executable helpers over `List Char`; all string processing of the
embedding is done through these so that every definition evaluates by
`decide`/`rfl`.
-/

/-- Embedding: `beginsWith pat cs` is true iff `pat` is an initial segment of `cs`
(the model of Rust's `str::starts_with`). -/
def beginsWith : List Char → List Char → Bool
  | [], _ => true
  | _ :: _, [] => false
  | p :: ps, c :: cs => p == c && beginsWith ps cs

/-- Embedding: `containsSeq pat cs` is true iff `pat` occurs contiguously in `cs`
(the model of Rust's `str::contains`). -/
def containsSeq : List Char → List Char → Bool
  | pat, [] => beginsWith pat []
  | pat, c :: cs => beginsWith pat (c :: cs) || containsSeq pat cs

/-- Remove `pat` from the front of `cs` when it is an initial segment
(the model of Rust's `str::strip_prefix`). -/
def removeLeading : List Char → List Char → Option (List Char)
  | [], cs => some cs
  | _ :: _, [] => none
  | p :: ps, c :: cs => if p == c then removeLeading ps cs else none

/-- Split `cs` at the first occurrence of `sep`, the model of Rust's
`str::split_once`. -/
def splitOnceChar (sep : Char) : List Char → Option (List Char × List Char)
  | [] => none
  | c :: cs =>
    if c == sep then some ([], cs)
    else (splitOnceChar sep cs).map (fun p => (c :: p.1, p.2))

/-- Split `cs` at the last occurrence of `sep`, the model of Rust's
`str::rsplit_once` (returns the part before and the part after). -/
def rsplitOnceChar (sep : Char) (cs : List Char) : Option (List Char × List Char) :=
  (splitOnceChar sep cs.reverse).map (fun p => (p.2.reverse, p.1.reverse))

/-- Split on every occurrence of `sep` (the model of Rust's `str::split`,
which yields empty pieces between adjacent separators). -/
def splitAllChar (sep : Char) : List Char → List (List Char)
  | [] => [[]]
  | c :: cs =>
    let rest := splitAllChar sep cs
    if c == sep then [] :: rest
    else match rest with
      | [] => [[c]]
      | r :: rs => (c :: r) :: rs

/-- Accumulating helper for `splitWhitespace`. -/
def splitWsAux : List Char → List Char → List String
  | [], acc => if acc.isEmpty then [] else [String.mk acc.reverse]
  | c :: cs, acc =>
    if c.isWhitespace then
      if acc.isEmpty then splitWsAux cs [] else String.mk acc.reverse :: splitWsAux cs []
    else splitWsAux cs (c :: acc)

/-- The model of Rust's `str::split_whitespace`: maximal runs of
non-whitespace characters. -/
def splitWhitespace (s : String) : List String :=
  splitWsAux s.toList []

/-- The model of Rust's `str::trim`. -/
def trimChars (cs : List Char) : List Char :=
  ((cs.dropWhile Char.isWhitespace).reverse.dropWhile Char.isWhitespace).reverse

/-- Embedding: `strTrim` trims ASCII/Unicode whitespace from both ends of a string. -/
def strTrim (s : String) : String :=
  String.mk (trimChars s.toList)

/-- Embedding: `strBeginsWith pre s` models Rust's `str::starts_with`. -/
def strBeginsWith (pre s : String) : Bool :=
  beginsWith pre.toList s.toList

/-- Embedding: `strRemoveLeading pre s` models Rust's `str::strip_prefix`. -/
def strRemoveLeading (pre s : String) : Option String :=
  (removeLeading pre.toList s.toList).map String.mk

/-- Embedding: `strEndsWith suf s` models Rust's `str::ends_with`. -/
def strEndsWith (suf s : String) : Bool :=
  beginsWith suf.toList.reverse s.toList.reverse

/-- Parse a decimal natural number, the model of Rust's `str::parse::<u64>()`
restricted to the values the pipeline actually feeds it. -/
def parseNat? (s : String) : Option Nat :=
  if s.toList ≠ [] ∧ s.toList.all Char.isDigit then
    some (s.toList.foldl (fun n c => n * 10 + (c.toNat - 48)) 0)
  else none

/-! ## Hex encoding and decoding (the model of the `hex` crate) -/

/-- Value of one hexadecimal digit. -/
def hexDigitVal? (c : Char) : Option Nat :=
  if '0' ≤ c ∧ c ≤ '9' then some (c.toNat - 48)
  else if 'a' ≤ c ∧ c ≤ 'f' then some (c.toNat - 87)
  else if 'A' ≤ c ∧ c ≤ 'F' then some (c.toNat - 55)
  else none

/-- Decode a hex character list into bytes; fails on odd length or a
non-hex character (the model of `hex::decode_to_slice` minus the length
check, which each caller performs explicitly). -/
def hexDecodeChars : List Char → Option (List Nat)
  | [] => some []
  | [_] => none
  | hi :: lo :: rest => do
    let h ← hexDigitVal? hi
    let l ← hexDigitVal? lo
    let bs ← hexDecodeChars rest
    pure ((h * 16 + l) :: bs)

/-- Decode a hex string into bytes. -/
def hexDecode (s : String) : Option (List Nat) :=
  hexDecodeChars s.toList

/-- Lowercase hex digit of a value `< 16`. -/
def hexDigitChar (n : Nat) : Char :=
  if n < 10 then Char.ofNat (48 + n) else Char.ofNat (87 + n)

/-- Encode bytes as lowercase hex (the model of `hex::encode`). -/
def hexEncode (bs : List Nat) : String :=
  String.mk (bs.flatMap (fun b => [hexDigitChar (b / 16), hexDigitChar (b % 16)]))

/-! ## Checksums — `src/metadata/checksum.rs` -/

/-- Embedding: `Checksum` (src/metadata/checksum.rs): a tagged digest.  Digest bytes
are a `List Nat`; the `try_from` parser enforces the fixed lengths
16/20/32/64 that the Rust arrays carry. -/
inductive Checksum where
  | md5 (digest : List Nat)
  | sha1 (digest : List Nat)
  | sha256 (digest : List Nat)
  | sha512 (digest : List Nat)
deriving DecidableEq, Repr

/-- Embedding: `Checksum::try_from(&str)` — dispatch on the hex-string length
32/40/64/128, reject anything else. -/
def Checksum.try_from (value : String) : Option Checksum :=
  match value.toList.length with
  | 32 => (hexDecode value).map Checksum.md5
  | 40 => (hexDecode value).map Checksum.sha1
  | 64 => (hexDecode value).map Checksum.sha256
  | 128 => (hexDecode value).map Checksum.sha512
  | _ => none

/-- Embedding: `Checksum::bits` — despite the name, the length in bytes of the digest. -/
def Checksum.bits : Checksum → Nat
  | .md5 v | .sha1 v | .sha256 v | .sha512 v => v.length

/-- Embedding: `Checksum::relative_path` (src/metadata/release.rs): the by-hash
relative path `by-hash/<algo>/<hex>`. -/
def Checksum.relative_path : Checksum → String
  | .md5 c => "by-hash/MD5Sum/" ++ hexEncode c
  | .sha1 c => "by-hash/SHA1/" ++ hexEncode c
  | .sha256 c => "by-hash/SHA256/" ++ hexEncode c
  | .sha512 c => "by-hash/SHA512/" ++ hexEncode c

/-- Embedding: `ChecksumType` (src/metadata/checksum.rs). -/
inductive ChecksumType where
  | md5
  | sha1
  | sha256
  | sha512
deriving DecidableEq, Repr

/-- Embedding: `ChecksumType::is_stronger` (src/metadata/checksum.rs:130-137),
translated arm for arm: the Rust `matches!` pairs a wildcard for `first`
with every constructor of `second`, so every combination is matched. -/
def ChecksumType.is_stronger (first : Option Checksum) (second : ChecksumType) : Bool :=
  match first, second with
  | _, ChecksumType.sha512 => true
  | _, ChecksumType.sha256 => true
  | _, ChecksumType.sha1 => true
  | _, ChecksumType.md5 => true

/-! ## Paths — `src/metadata.rs` (`FilePath`) and Rust `std::path::Path` -/

/-- Embedding: `FilePath` (src/metadata.rs): a UTF-8 path stored as a plain string. -/
structure FilePath where
  val : String
deriving DecidableEq, Repr

/-- Embedding: `FilePath::parent` (src/metadata.rs:129-133): the part before the last
`/`, `none` when the string has no `/` at all. -/
def FilePath.parent? (p : FilePath) : Option String :=
  (rsplitOnceChar '/' p.val.toList).map (fun q => String.mk q.1)

/-- Embedding: `FilePath::join` (src/metadata.rs:135-156): strip one trailing `/` from
the base and one leading `/` or `./` from the argument, then concatenate. -/
def FilePath.join (p : FilePath) (other : String) : FilePath :=
  let first := match strEndsWith "/" p.val with
    | true => String.mk (p.val.toList.dropLast)
    | false => p.val
  let other := match strRemoveLeading "/" other with
    | some s => s
    | none => match strRemoveLeading "./" other with
      | some s => s
      | none => other
  if first.toList.isEmpty then ⟨other⟩
  else ⟨first ++ "/" ++ other⟩

/-- Normalized components of a path in the sense of Rust's
`std::path::Path::components`: split on `/`, dropping empty pieces and
`.`. -/
def rustComponents (s : String) : List String :=
  ((splitAllChar '/' s.toList).map String.mk).filter (fun c => c ≠ "" && c ≠ ".")

/-- Rust `Path::file_name`: the last normalized component when it is a
normal component, `none` when the path is empty or ends in `..`. -/
def rustFileName? (s : String) : Option String :=
  match (rustComponents s).getLast? with
  | none => none
  | some c => if c = ".." then none else some c

/-- The stem of one file name: the part before the final `.`, or the whole
name when there is no `.` or the name starts with its only `.` (Rust
`Path::file_stem` on a present file name). -/
def stemOfName (f : String) : String :=
  match rsplitOnceChar '.' f.toList with
  | none => f
  | some (before, _) => if before.isEmpty then f else String.mk before

/-- Rust `Path::file_stem` as used by `FilePath::file_stem`
(src/metadata.rs:83-90): `none` models the `expect` panic on a path with
no final file-name component. -/
def rustFileStem? (s : String) : Option String :=
  (rustFileName? s).map stemOfName

/-- Rust `Path::extension`: the part of the file name after the final `.`,
`none` when there is no `.` or the name starts with its only `.`. -/
def rustExtension? (s : String) : Option String :=
  (rustFileName? s).bind fun f =>
    match rsplitOnceChar '.' f.toList with
    | none => none
    | some (before, after) => if before.isEmpty then none else some (String.mk after)

/-- Embedding: `FilePath::file_name` defaulted to `""` where the source's `expect`
would panic (a Rust file name is never empty, so the default is disjoint
from every real value). -/
def FilePath.fileNameD (p : FilePath) : String :=
  (rustFileName? p.val).getD ""

/-! ## Release file entries — `src/metadata/release.rs` -/

/-- Embedding: `FileEntry` (src/metadata/release.rs:405-412). -/
structure FileEntry where
  size : Nat
  md5 : Option (List Nat)
  sha1 : Option (List Nat)
  sha256 : Option (List Nat)
  sha512 : Option (List Nat)
deriving DecidableEq, Repr

/-- Embedding: `FileEntry::strongest_hash` (src/metadata/release.rs:415-425). -/
def FileEntry.strongest_hash (e : FileEntry) : Option Checksum :=
  match e.sha512 with
  | some h => some (.sha512 h)
  | none => match e.sha256 with
    | some h => some (.sha256 h)
    | none => match e.sha1 with
      | some h => some (.sha1 h)
      | none => e.md5.map .md5

/-- Embedding: `FileEntryChecksumIterator` (src/metadata/release.rs:476-514): a cursor
over the entry's checksums, strongest first. -/
structure FileEntryChecksumIterator where
  file_entry : FileEntry
  pos : Nat
deriving Repr

/-- Embedding: `FileEntryChecksumIterator::new`. -/
def FileEntryChecksumIterator.new (e : FileEntry) : FileEntryChecksumIterator :=
  ⟨e, 0⟩

/-- One slot of the iterator's loop body: the checksum taken at index `i`
and the entry with that slot cleared (`Option::take`). -/
def FileEntry.takeAt (e : FileEntry) : Nat → Option Checksum × FileEntry
  | 0 => (e.sha512.map .sha512, { e with sha512 := none })
  | 1 => (e.sha256.map .sha256, { e with sha256 := none })
  | 2 => (e.sha1.map .sha1, { e with sha1 := none })
  | 3 => (e.md5.map .md5, { e with md5 := none })
  | _ => (none, e)

/-- The `for i in self.pos..=3` scan of
`FileEntryChecksumIterator::next` (src/metadata/release.rs:493-513); the
fuel is the number of indices left to visit, `4 - i`. -/
def iterScanAux (e : FileEntry) (i : Nat) : Nat → Option (Checksum × FileEntryChecksumIterator)
  | 0 => none
  | fuel + 1 =>
    if i ≤ 3 then
      match FileEntry.takeAt e i with
      | (some c, e') => some (c, ⟨e', i + 1⟩)
      | (none, e') => iterScanAux e' (i + 1) fuel
    else none

/-- The scan started at index `i` with exact fuel. -/
def iterScan (e : FileEntry) (i : Nat) : Option (Checksum × FileEntryChecksumIterator) :=
  iterScanAux e i (4 - i)

/-- Embedding: `FileEntryChecksumIterator::next`. -/
def FileEntryChecksumIterator.next (it : FileEntryChecksumIterator) :
    Option (Checksum × FileEntryChecksumIterator) :=
  iterScan it.file_entry it.pos

/-- All checksums the iterator yields, strongest first — the reference list
`[sha512?, sha256?, sha1?, md5?]` with the absent ones dropped. -/
def FileEntry.checksums (e : FileEntry) : List Checksum :=
  (e.sha512.map Checksum.sha512).toList ++ (e.sha256.map Checksum.sha256).toList ++
    (e.sha1.map Checksum.sha1).toList ++ (e.md5.map Checksum.md5).toList

/-- Embedding: `MirsError` (src/error.rs), restricted to the variants the verified
functions construct; payloads are kept only where a claim inspects them. -/
inductive MirsError where
  | download (url : String) (statusCode : Nat)
  | checksumMismatch (url : String)
  | ioFailure
  | config (msg : String)
  | parsingPackage
  | noReleaseFile
  | invalidReleaseFile
  | pgpNotSupported
  | pgpNotVerified
  | unrecognizedSumFile (path : FilePath)
deriving DecidableEq, Repr

/-- The `for checksum in checksum_iter` loop of `FileEntry::into_paths`:
drain the iterator, mapping each remaining checksum to its by-hash path
under `by_hash_base`.  Four slots exist, so fuel `4` drains any state. -/
def collectWeakerPaths (by_hash_base : FilePath) :
    FileEntryChecksumIterator → Nat → List FilePath
  | _, 0 => []
  | it, fuel + 1 =>
    match it.next with
    | none => []
    | some (c, it') => by_hash_base.join c.relative_path :: collectWeakerPaths by_hash_base it' fuel

/-- Embedding: `FileEntry::into_paths` (src/metadata/release.rs:436-463): the
checksum, primary target path and symlink paths of a metadata download. -/
def FileEntry.into_paths (e : FileEntry) (file_path : FilePath) (by_hash : Bool) :
    Except MirsError (Option Checksum × FilePath × List FilePath) :=
  let strongest_checksum := e.strongest_hash
  let checksum_iter := FileEntryChecksumIterator.new e
  if by_hash then
    let by_hash_base : FilePath := ⟨(file_path.parent?).getD ""⟩
    let symlink_paths := [file_path]
    match checksum_iter.next with
    | none => .error .noReleaseFile
    | some (strongest, it) =>
      let symlink_paths := symlink_paths ++ collectWeakerPaths by_hash_base it 4
      .ok (strongest_checksum, by_hash_base.join strongest.relative_path, symlink_paths)
  else
    .ok (strongest_checksum, file_path, [])

/-! ## Download requests — `src/downloader.rs` -/

/-- Embedding: `Download` (src/downloader.rs:213-221). -/
structure Download where
  url : String
  size : Option Nat
  checksum : Option Checksum
  primary_target_path : FilePath
  symlink_paths : List FilePath
  always_download : Bool
deriving DecidableEq, Repr

/-- Embedding: `Repository::create_metadata_download`
(src/metadata/repository.rs:184-197). -/
def create_metadata_download (url : String) (file_path : FilePath)
    (file_entry : FileEntry) (by_hash : Bool) : Except MirsError Download :=
  let size := file_entry.size
  match file_entry.into_paths file_path by_hash with
  | .error e => .error e
  | .ok (checksum, primary_target_path, symlink_paths) =>
    .ok { url
          size := some size
          checksum
          primary_target_path
          symlink_paths
          always_download := false }

/-! ## Metadata-file classification — `src/metadata/metadata_file.rs` -/

/-- Embedding: `MetadataFile` (src/metadata/metadata_file.rs:8-14). -/
inductive MetadataFile where
  | packages (path : FilePath)
  | sources (path : FilePath)
  | diffIndex (path : FilePath)
  | debianInstallerSumFile (path : FilePath)
  | other (path : FilePath)
deriving DecidableEq, Repr

/-- Embedding: `MetadataFile::path`. -/
def MetadataFile.path : MetadataFile → FilePath
  | .packages p | .sources p | .diffIndex p | .debianInstallerSumFile p | .other p => p

/-- Embedding: `is_packages_file` (src/metadata/metadata_file.rs:111-113); `none`
models the panic of `FilePath::file_stem` on a path with no file name. -/
def is_packages_file? (path : FilePath) : Option Bool :=
  (rustFileStem? path.val).map (· == "Packages")

/-- Embedding: `is_sources_file` (src/metadata/metadata_file.rs:123-125). -/
def is_sources_file? (path : FilePath) : Option Bool :=
  (rustFileStem? path.val).map (· == "Sources")

/-- Embedding: `is_diff_index_file` (src/metadata/metadata_file.rs:115-117). -/
def is_diff_index_file? (path : FilePath) : Option Bool :=
  (rustFileStem? path.val).map (· == "Index")

/-- Embedding: `is_debian_installer_sumfile` (src/metadata/metadata_file.rs:119-121). -/
def is_debian_installer_sumfile? (path : FilePath) : Option Bool :=
  (rustFileStem? path.val).map fun stem =>
    strEndsWith "SUMS" stem && containsSeq "installer-".toList (path.parent?.getD "").toList

/-- Embedding: `MetadataFile::from` (src/metadata/metadata_file.rs:87-109); `none`
models the panic inherited from `FilePath::file_stem` inside the
classification predicates. -/
def MetadataFile.from? (value : String) : Option MetadataFile :=
  let path : FilePath := ⟨value⟩
  match is_packages_file? path with
  | none => none
  | some true => some (.packages path)
  | some false =>
    match is_sources_file? path with
    | none => none
    | some true => some (.sources path)
    | some false =>
      match is_diff_index_file? path with
      | none => none
      | some true => some (.diffIndex path)
      | some false =>
        match is_debian_installer_sumfile? path with
        | none => none
        | some true => some (.debianInstallerSumFile path)
        | some false => some (.other path)

/-- Embedding: `MetadataFile::canonical_path` (src/metadata/metadata_file.rs:53-68);
`none` models the panics of `file_stem` and of the sum-file branch's
`parent().unwrap()`. -/
def MetadataFile.canonical_path? : MetadataFile → Option FilePath
  | .sources file_path | .packages file_path =>
    (rustFileStem? file_path.val).map fun stem =>
      ⟨(file_path.parent?.getD "") ++ "/" ++ stem⟩
  | .debianInstallerSumFile file_path =>
    (file_path.parent?).map fun p => ⟨p⟩
  | .diffIndex file_path | .other file_path => some file_path

/-- Embedding: `is_extension_preferred` (src/metadata/metadata_file.rs:167-173): the
wildcard on `old` makes any compressed `new` win. -/
def is_extension_preferred (old new : Option String) : Bool :=
  match old, new with
  | _, some "gz" => true
  | _, some "xz" => true
  | _, some "bz2" => true
  | _, _ => false

/-- Embedding: `is_sumfile_preferred` (src/metadata/metadata_file.rs:175-180): the
wildcard on `old` makes any `new` of `SHA512SUMS`/`SHA256SUMS` win. -/
def is_sumfile_preferred (old new : String) : Bool :=
  match old, new with
  | _, "SHA512SUMS" => true
  | _, "SHA256SUMS" => true
  | _, _ => false

/-- Association-list update at a present key, the model of
`HashMap::get_mut` followed by an assignment. -/
def alistSet (k : FilePath) (v : MetadataFile) :
    List (FilePath × MetadataFile) → List (FilePath × MetadataFile)
  | [] => []
  | (k', v') :: rest =>
    if k' = k then (k', v) :: rest else (k', v') :: alistSet k v rest

/-- Association-list lookup, the model of `HashMap::get`. -/
def alistGet? (k : FilePath) : List (FilePath × MetadataFile) → Option MetadataFile
  | [] => none
  | (k', v') :: rest => if k' = k then some v' else alistGet? k rest

/-- One iteration of the `for file in files` loop of `deduplicate_metadata`
(src/metadata/metadata_file.rs:127-165); `none` models a panic (missing
canonical path, or a non-sum-file stored under a sum file's key). -/
def dedupStepMeta (map : List (FilePath × MetadataFile)) (file : MetadataFile) :
    Option (List (FilePath × MetadataFile)) :=
  match file.canonical_path? with
  | none => none
  | some canonical =>
    match file with
    | .packages _ | .sources _ =>
      match alistGet? canonical map with
      | some old =>
        if is_extension_preferred (rustExtension? old.path.val) (rustExtension? file.path.val) then
          some (alistSet canonical file map)
        else some map
      | none => some (map ++ [(canonical, file)])
    | .debianInstallerSumFile sum_file =>
      match alistGet? canonical map with
      | some (MetadataFile.debianInstallerSumFile old) =>
        if is_sumfile_preferred (FilePath.fileNameD old) (FilePath.fileNameD sum_file) then
          some (alistSet canonical file map)
        else some map
      | some _ => none
      | none => some (map ++ [(canonical, file)])
    | .diffIndex _ | .other _ =>
      match alistGet? canonical map with
      | some _ => some (alistSet canonical file map)
      | none => some (map ++ [(canonical, file)])

/-- Embedding: `deduplicate_metadata` (src/metadata/metadata_file.rs:127-165).  The
hash map is modelled as an association list in insertion order; the
returned values are the map's values (the source's `into_values`). -/
def deduplicate_metadata (files : List MetadataFile) : Option (List MetadataFile) :=
  (files.foldlM dedupStepMeta []).map (·.map (·.2))

/-! ## Debian-installer sum files — `src/metadata/sum_file.rs` -/

/-- The algorithm of a sum file, ordered by strength
MD5 < SHA1 < SHA256 < SHA512 as in the `PartialOrd` impl
(src/metadata/sum_file.rs:68-83). -/
inductive SumAlgo where
  | md5
  | sha1
  | sha256
  | sha512
deriving DecidableEq, Repr

/-- Numeric strength rank of an algorithm. -/
def SumAlgo.rank : SumAlgo → Nat
  | .md5 => 0
  | .sha1 => 1
  | .sha256 => 2
  | .sha512 => 3

/-- Embedding: `SumFile` (src/metadata/sum_file.rs:9-14): an algorithm tag with the
path of the sum file. -/
structure SumFile where
  algo : SumAlgo
  path : FilePath
deriving DecidableEq, Repr

/-- Embedding: `SumFile::try_from(FilePath)` (src/metadata/sum_file.rs:31-51):
dispatch on the file name. -/
def SumFile.try_from (value : FilePath) : Except MirsError SumFile :=
  match rustFileName? value.val with
  | none => .error (.unrecognizedSumFile value)
  | some name =>
    match name with
    | "MD5SUMS" => .ok ⟨.md5, value⟩
    | "SHA1SUMS" => .ok ⟨.sha1, value⟩
    | "SHA256SUMS" => .ok ⟨.sha256, value⟩
    | "SHA512SUMS" => .ok ⟨.sha512, value⟩
    | _ => .error (.unrecognizedSumFile value)

/-- The `v > *last` test of the dedup fold: strictly stronger algorithm
(`SumFile`'s `PartialOrd` compares only the algorithm). -/
def SumFile.strongerThan (v last : SumFile) : Bool :=
  last.algo.rank < v.algo.rank

/-- Lexicographic order on character lists — Rust's `str` ordering (UTF-8
byte order coincides with code-point order). -/
def charListLe : List Char → List Char → Bool
  | [], _ => true
  | _ :: _, [] => false
  | c :: cs, d :: ds =>
    if c.toNat < d.toNat then true
    else if d.toNat < c.toNat then false
    else charListLe cs ds

/-- The comparator of `di_indices.sort_by(|a, b| a.parent().cmp(&b.parent()))`
(src/metadata/sum_file.rs:86) as a boolean `le`, via the order on
`Option String` with `none` least (Rust's `Option::cmp`). -/
def parentLe (a b : FilePath) : Bool :=
  match a.parent?, b.parent? with
  | none, _ => true
  | some _, none => false
  | some x, some y => charListLe x.toList y.toList

/-- The per-file parse loop of `to_strongest_by_checksum`
(src/metadata/sum_file.rs:90-92). -/
def parseSumFiles : List FilePath → Except MirsError (List SumFile)
  | [] => .ok []
  | p :: ps => do
    let s ← SumFile.try_from p
    let rest ← parseSumFiles ps
    pure (s :: rest)

/-- One step of the dedup fold of `to_strongest_by_checksum`
(src/metadata/sum_file.rs:94-108).  The accumulator is kept reversed so
the source's `list.last_mut()` is the head. -/
def sumDedupStep (acc : List SumFile) (v : SumFile) : List SumFile :=
  match acc with
  | [] => [v]
  | last :: rest =>
    if last.path.parent? = v.path.parent? then
      if v.strongerThan last then v :: rest else last :: rest
    else v :: last :: rest

/-- Embedding: `to_strongest_by_checksum` (src/metadata/sum_file.rs:85-111): sort by
parent directory, parse each file, then keep one sum file per directory,
upgrading to a strictly stronger algorithm.  Rust's `sort_by` is a stable
sort and `parentLe` is a total preorder, so the stable `insertionSort`
computes the same permutation. -/
def to_strongest_by_checksum (di_indices : List FilePath) : Except MirsError (List SumFile) := do
  let sorted := List.insertionSort (fun a b => parentLe a b = true) di_indices
  let sum_files ← parseSumFiles sorted
  pure ((sum_files.foldl sumDedupStep []).reverse)

/-! ## Packages paragraphs — `src/metadata/packages_file.rs` -/

/-- Embedding: `IndexFileEntry` (src/metadata.rs:165-170). -/
structure IndexFileEntry where
  path : String
  size : Option Nat
  checksum : Option Checksum
deriving DecidableEq, Repr

/-- Errors of the paragraph scan: `hexError` models the
`Some(Err(e.into()))` on a bad hex digest, `panicSize` the
`expect("value of Size should be an integer")` panic. -/
inductive PkgScanError where
  | hexError
  | panicSize
deriving DecidableEq, Repr

/-- The running state of the `for line in self.buf.lines()` loop of
`PackagesFile::next` (src/metadata/packages_file.rs:69-111). -/
structure PkgAcc where
  path : Option String
  size : Option Nat
  hash : Option Checksum
deriving DecidableEq, Repr

/-- Decode one fixed-length hex digest as in the loop bodies
(`hex::decode_to_slice` into an array of `n` bytes). -/
def decodeDigest (n : Nat) (s : String) : Except PkgScanError (List Nat) :=
  match hexDecode s with
  | some bs => if bs.length = n then .ok bs else .error .hexError
  | none => .error .hexError

/-- One line of the paragraph scan of `PackagesFile::next`
(src/metadata/packages_file.rs:73-111), field for field. -/
def pkgLineStep (acc : PkgAcc) (line : String) : Except PkgScanError PkgAcc :=
  match strRemoveLeading "Filename: " line with
  | some filename => .ok { acc with path := some filename }
  | none =>
  match strRemoveLeading "Size: " line with
  | some line_size =>
    match parseNat? line_size with
    | some n => .ok { acc with size := some n }
    | none => .error .panicSize
  | none =>
  match strRemoveLeading "MD5Sum: " line with
  | some line_hash =>
    if ChecksumType.is_stronger acc.hash ChecksumType.md5 then do
      let md5 ← decodeDigest 16 line_hash
      .ok { acc with hash := some (.md5 md5) }
    else .ok acc
  | none =>
  match strRemoveLeading "SHA1: " line with
  | some line_hash =>
    if ChecksumType.is_stronger acc.hash ChecksumType.sha1 then do
      let sha1 ← decodeDigest 20 line_hash
      .ok { acc with hash := some (.sha1 sha1) }
    else .ok acc
  | none =>
  match strRemoveLeading "SHA256: " line with
  | some line_hash =>
    if ChecksumType.is_stronger acc.hash ChecksumType.sha256 then do
      let sha256 ← decodeDigest 32 line_hash
      .ok { acc with hash := some (.sha256 sha256) }
    else .ok acc
  | none =>
  match strRemoveLeading "SHA512: " line with
  | some line_hash =>
    if ChecksumType.is_stronger acc.hash ChecksumType.sha512 then do
      let sha512 ← decodeDigest 64 line_hash
      .ok { acc with hash := some (.sha512 sha512) }
    else .ok acc
  | none => .ok acc

/-- The entry `PackagesFile::next` emits for one paragraph
(src/metadata/packages_file.rs:69-124): scan the lines in order, then
require `Filename` and `Size` (`none` result models the iterator
returning `None`). -/
def pkgParagraphEntry (lines : List String) : Except PkgScanError (Option IndexFileEntry) := do
  let acc ← lines.foldlM pkgLineStep ⟨none, none, none⟩
  match acc.path, acc.size with
  | some path, some size => pure (some { path, size := some size, checksum := acc.hash })
  | _, _ => pure none

/-! ## Repository URL/path mapping — `src/metadata/repository.rs` -/

/-- Embedding: `Repository::release_urls` (src/metadata/repository.rs:78-84). -/
def release_urls (dist_url : String) : List String :=
  [dist_url ++ "/InRelease", dist_url ++ "/Release", dist_url ++ "/Release.gpg"]

/-- Embedding: `Repository::to_path_in_local_dir` (src/metadata/repository.rs:90-101);
`none` models the `expect` panic when the URL is not under the root. -/
def to_path_in_local_dir (root_url : String) (base : FilePath) (url : String) :
    Option FilePath :=
  (strRemoveLeading root_url url).map fun relative_path =>
    let relative_path := (strRemoveLeading "/" relative_path).getD relative_path
    base.join relative_path

/-! ## PGP verification dispatch — `src/pgp.rs` -/

/-- The `KeyStore` trait (src/pgp.rs:78-99) as consumed by
`verify_release_signature`: the two verification entry points, abstracted
over the cryptographic outcome. -/
structure KeyStoreModel where
  verify_inlined : FilePath → Except MirsError Unit
  verify_standalone : FilePath → FilePath → Except MirsError Unit

/-- Embedding: `verify_release_signature` (src/pgp.rs:225-241): prefer a file named
`InRelease`; otherwise require files named `Release` and — as written in
the source — `Release.pgp` for the detached check. -/
def verify_release_signature (files : List FilePath) (key_store : KeyStoreModel) :
    Except MirsError Unit :=
  match files.find? (fun v => v.fileNameD == "InRelease") with
  | some inrelease_file => key_store.verify_inlined inrelease_file
  | none =>
    match files.find? (fun v => v.fileNameD == "Release") with
    | none => .error .pgpNotSupported
    | some release_file =>
      match files.find? (fun v => v.fileNameD == "Release.pgp") with
      | none => .error .pgpNotSupported
      | some release_file_signature =>
        key_store.verify_standalone release_file_signature release_file

/-! ## Progress counters — `src/progress.rs` -/

/-- Embedding: `ProgressPart` (src/progress.rs:145-150): the three atomic counters.
The structure has exactly the fields of the source — in particular there
is no `failed` counter. -/
structure ProgressPart where
  total : Nat
  success : Nat
  skipped : Nat
deriving DecidableEq, Repr

/-- Embedding: `ProgressPart::new`. -/
def ProgressPart.new : ProgressPart := ⟨0, 0, 0⟩

/-- Embedding: `ProgressPart::inc_total`. -/
def ProgressPart.inc_total (c : ProgressPart) (count : Nat) : ProgressPart :=
  { c with total := c.total + count }

/-- Embedding: `ProgressPart::inc_success`. -/
def ProgressPart.inc_success (c : ProgressPart) (count : Nat) : ProgressPart :=
  { c with success := c.success + count }

/-- Embedding: `ProgressPart::inc_skipped`. -/
def ProgressPart.inc_skipped (c : ProgressPart) (count : Nat) : ProgressPart :=
  { c with skipped := c.skipped + count }

/-- Embedding: `2 ^ 64`, the modulus of `u64` arithmetic. -/
def u64Mod : Nat := 2 ^ 64

/-- Wrapping `u64` subtraction (release-mode Rust `-` on `u64`): for
`a, b < 2 ^ 64` this is `a - b` modulo `2 ^ 64`. -/
def wsub (a b : Nat) : Nat := (a + u64Mod - b) % u64Mod

/-- Embedding: `ProgressPart::remaining` (src/progress.rs:185-189):
`total - success - skipped` in unchecked `u64` arithmetic. -/
def ProgressPart.remaining (c : ProgressPart) : Nat :=
  wsub (wsub c.total c.success) c.skipped

/-- The exit condition of the polling loop of
`Progress::wait_for_completion` (src/progress.rs:131-142): the loop runs
`while self.files.remaining() > 0`, so completion is observed exactly when
`remaining` is zero. -/
def waitObservesCompletion (files : ProgressPart) : Bool :=
  files.remaining == 0

/-! ## Download outcomes and counter discipline — `src/downloader.rs` -/

/-- The terminal outcome of one `download_file` call as matched by the
worker loop of `Downloader::build` (src/downloader.rs:50-64):
`Ok(true)` (downloaded), `Ok(false)` (already present, skipped) or
`Err(_)`. -/
inductive DlOutcome where
  | downloaded
  | alreadyPresent
  | err
deriving DecidableEq, Repr

/-- The files-counter update a worker performs for one terminal outcome
(src/downloader.rs:53-63): success on a completed download, skipped both
for an existing file and for an error. -/
def workerStep (o : DlOutcome) (files : ProgressPart) : ProgressPart :=
  match o with
  | .downloaded => files.inc_success 1
  | .alreadyPresent => files.inc_skipped 1
  | .err => files.inc_skipped 1

/-- The files-counter update of `Downloader::queue`
(src/downloader.rs:79-89): one enqueue increments `total` by one. -/
def queueStep (files : ProgressPart) : ProgressPart :=
  files.inc_total 1

/-- The files-counter update of the direct `Downloader::download`
(src/downloader.rs:91-109): identical to a worker outcome, with no
`inc_total`. -/
def downloadStep (o : DlOutcome) (files : ProgressPart) : ProgressPart :=
  workerStep o files

/-- Embedding: `n` successive enqueues from a given counter state. -/
def queueN : Nat → ProgressPart → ProgressPart
  | 0, c => c
  | n + 1, c => queueN n (queueStep c)

/-- Counter state after `n` enqueues and the given terminal outcomes. -/
def runCounters (n : Nat) (outcomes : List DlOutcome) : ProgressPart :=
  outcomes.foldl (fun c o => workerStep o c) (queueN n ProgressPart.new)

/-! ## The download worker — `src/downloader.rs::download_file` -/

/-- A node of the modelled filesystem: a regular file with its bytes, or a
symbolic link with its target. -/
inductive FsNode where
  | file (bytes : List Nat)
  | symlink (target : String)
deriving DecidableEq, Repr

/-- The filesystem as an association list from path to node. -/
def Fs := List (String × FsNode)

/-- Filesystem lookup. -/
def fsGet? (fs : Fs) (p : String) : Option FsNode :=
  (fs.find? (fun e => e.1 == p)).map (·.2)

/-- Create-or-truncate a regular file (Rust `File::create`). -/
def fsPut (fs : Fs) (p : String) (node : FsNode) : Fs :=
  (p, node) :: fs.filter (fun e => e.1 != p)

/-- Remove a file (Rust `tokio::fs::remove_file`). -/
def fsRemove (fs : Fs) (p : String) : Fs :=
  fs.filter (fun e => e.1 != p)

/-- The HTTP response of one GET: a status code and the body chunks. -/
structure HttpResponse where
  status : Nat
  chunks : List (List Nat)
deriving DecidableEq, Repr

/-- An abstract streaming hash implementation (the `md-5`/`sha1`/`sha2`
crates): digest bytes of a byte stream, per algorithm. -/
def HashImpl := ChecksumType → List Nat → List Nat

/-- The algorithm of a `Checksum`, used by `Checksum::create_hasher`. -/
def Checksum.algo : Checksum → ChecksumType
  | .md5 _ => .md5
  | .sha1 _ => .sha1
  | .sha256 _ => .sha256
  | .sha512 _ => .sha512

/-- Wrap digest bytes back into a checksum of the given algorithm
(`Hasher::compute`). -/
def mkChecksum : ChecksumType → List Nat → Checksum
  | .md5, d => .md5 d
  | .sha1, d => .sha1 d
  | .sha256, d => .sha256 d
  | .sha512, d => .sha512 d

/-- Embedding: `needs_downloading` (src/downloader.rs:197-211): metadata lookup is the
modelled filesystem's file length. -/
def needs_downloading (fs : Fs) (dl : Download) : Bool :=
  if dl.always_download then true
  else match fsGet? fs dl.primary_target_path.val with
    | some (.file bytes) =>
      match dl.size with
      | some size => size != bytes.length
      | none => false
    | some (.symlink _) => false
    | none => true

/-- The symlink fan-out loop at the end of `download_file`
(src/downloader.rs:169-182); the `pathdiff` crate is abstracted as
`diffPaths`. -/
def createSymlinks (diffPaths : String → String → String) (primary : FilePath) :
    Fs → List FilePath → Fs
  | fs, [] => fs
  | fs, sp :: rest =>
    let fs :=
      if (fsGet? fs sp.val).isSome then fs
      else fsPut fs sp.val (.symlink (diffPaths primary.val (sp.parent?.getD "")))
    createSymlinks diffPaths primary fs rest

/-- Embedding: `download_file` (src/downloader.rs:116-185), the worker-pool version:
destination created, GET issued unless the expected size is zero, 404
removes the destination, checksum mismatch removes the destination,
then the symlink fan-out. -/
def download_file (hash : HashImpl) (diffPaths : String → String → String)
    (fs : Fs) (dl : Download) (response : HttpResponse) : Fs × Except MirsError Bool :=
  let run : Fs × Except MirsError Bool :=
    if needs_downloading fs dl then
      let fs := fsPut fs dl.primary_target_path.val (.file [])
      if dl.size.elim true (fun v => v > 0) then
        if response.status == 404 then
          (fsRemove fs dl.primary_target_path.val,
           .error (.download dl.url response.status))
        else
          let body := response.chunks.flatten
          match dl.checksum with
          | some expected_checksum =>
            let checksum := mkChecksum expected_checksum.algo (hash expected_checksum.algo body)
            if expected_checksum ≠ checksum then
              (fsRemove fs dl.primary_target_path.val,
               .error (.checksumMismatch dl.url))
            else (fsPut fs dl.primary_target_path.val (.file body), .ok true)
          | none => (fsPut fs dl.primary_target_path.val (.file body), .ok true)
      else (fs, .ok false)
    else (fs, .ok false)
  match run with
  | (fs, .error e) => (fs, .error e)
  | (fs, .ok downloaded) =>
    (createSymlinks diffPaths dl.primary_target_path fs dl.symlink_paths, .ok downloaded)

/-- Embedding: `download_file` (src/mirror/downloader.rs:113-180), the older copy: on
404 it returns the `Download` error without removing the destination it
created; all other branches match the worker-pool version. -/
def mirror_download_file (hash : HashImpl) (diffPaths : String → String → String)
    (fs : Fs) (dl : Download) (response : HttpResponse) : Fs × Except MirsError Bool :=
  let run : Fs × Except MirsError Bool :=
    if needs_downloading fs dl then
      let fs := fsPut fs dl.primary_target_path.val (.file [])
      if dl.size.elim true (fun v => v > 0) then
        if response.status == 404 then
          (fs, .error (.download dl.url response.status))
        else
          let body := response.chunks.flatten
          match dl.checksum with
          | some expected_checksum =>
            let checksum := mkChecksum expected_checksum.algo (hash expected_checksum.algo body)
            if expected_checksum ≠ checksum then
              (fsRemove fs dl.primary_target_path.val,
               .error (.checksumMismatch dl.url))
            else (fsPut fs dl.primary_target_path.val (.file body), .ok true)
          | none => (fsPut fs dl.primary_target_path.val (.file body), .ok true)
      else (fs, .ok false)
    else (fs, .ok false)
  match run with
  | (fs, .error e) => (fs, .error e)
  | (fs, .ok downloaded) =>
    (createSymlinks diffPaths dl.primary_target_path fs dl.symlink_paths, .ok downloaded)

/-- Whether an error value is of the `Download` category. -/
def MirsError.isDownload : MirsError → Bool
  | .download _ _ => true
  | _ => false

/-! ## Configuration — `src/config.rs` -/

/-- Embedding: `MirrorOpts` (src/config.rs:100-112). -/
structure MirrorOpts where
  url : String
  suite : String
  components : List String
  arch : List String
  debian_installer_arch : List String
  source : Bool
  packages : Bool
  pgp_pub_key : Option String
  pgp_verify : Bool
  udeb : Bool
deriving DecidableEq, Repr

/-- The mutable option state threaded through the bracket-option loop of
`MirrorOpts::try_from`. -/
structure OptsAcc where
  arch : List String
  debian_installer_arch : List String
  pgp_pub_key : Option String
  pgp_verify : Bool
  udeb : Bool
deriving DecidableEq, Repr

/-- One `key=value` item of the options bracket
(src/config.rs:168-185). -/
def applyBracketOpt (acc : OptsAcc) (part : String) : Except MirsError OptsAcc :=
  match splitOnceChar '=' part.toList with
  | none => .error (.config "invalid format of options bracket")
  | some (k, v) =>
    let opt_key := String.mk k
    let opt_val := String.mk v
    if opt_key = "arch" then
      .ok { acc with arch := acc.arch ++ ((splitAllChar ',' opt_val.toList).map String.mk) }
    else if opt_key = "di_arch" then
      .ok { acc with debian_installer_arch :=
              acc.debian_installer_arch ++ ((splitAllChar ',' opt_val.toList).map String.mk) }
    else if opt_key = "pgp_pub_key" then
      .ok { acc with pgp_pub_key := some opt_val, pgp_verify := true }
    else if opt_key = "pgp_verify" then
      .ok { acc with pgp_verify := opt_val.toLower = "true" }
    else if opt_key = "udeb" then
      .ok { acc with udeb := opt_val.toLower = "true" }
    else .ok acc

/-- Embedding: `MirrorOpts::try_from` (src/config.rs:138-229). -/
def MirrorOpts.try_from (line : String) : Except MirsError MirrorOpts := do
  let (source, packages, line) ←
    match strRemoveLeading "deb-src" line with
    | some rest => pure (true, false, rest)
    | none =>
      match strRemoveLeading "deb" line with
      | some rest => pure (false, true, rest)
      | none => .error (.config "mirror config must start with either 'deb' or 'deb-src'")
  let line := String.mk (line.toList.dropWhile Char.isWhitespace)
  let (acc, line) ←
    if strBeginsWith "[" line then
      match splitOnceChar ']' line.toList with
      | none => .error (.config "options bracket is not closed")
      | some (before, after) =>
        let options_line := String.mk (trimChars (before.drop 1))
        let init : OptsAcc := ⟨[], [], none, false, false⟩
        let acc ← (splitWhitespace options_line).foldlM applyBracketOpt init
        pure (acc, String.mk after)
    else
      pure (⟨[], [], none, false, false⟩, line)
  let line := String.mk (line.toList.dropWhile Char.isWhitespace)
  let parts := splitWhitespace line
  let url ← match parts.head? with
    | some u => pure u
    | none => .error (.config "no url specified")
  let url := if strEndsWith "/" url then String.mk url.toList.dropLast else url
  let suite ← match (parts.drop 1).head? with
    | some s => pure s
    | none => .error (.config "no suite specified")
  let components := (parts.drop 2).map fun v =>
    ((splitAllChar '/' v.toList).map String.mk).getLastD ""
  let components := if components.isEmpty then ["main"] else components
  let arch := if acc.arch.isEmpty then ["amd64"] else acc.arch
  pure { url, suite, components, arch
         debian_installer_arch := acc.debian_installer_arch
         source, packages
         pgp_pub_key := acc.pgp_pub_key
         pgp_verify := acc.pgp_verify
         udeb := acc.udeb }

/-- The preprocessing one line of the config file receives
(src/config.rs:24-36): trim, cut at the first `#`. -/
def preprocessLine (line : String) : String :=
  let t := strTrim line
  match splitOnceChar '#' t.toList with
  | some (before, _) => String.mk before
  | none => t

/-- The parse-and-collect loop of `read_config` (src/config.rs:19-45):
empty lines are skipped, lines that fail to parse are skipped with a
warning. -/
def parsedMirrors (lines : List String) : List MirrorOpts :=
  lines.filterMap fun line =>
    let line := preprocessLine line
    if line.toList.isEmpty then none
    else match MirrorOpts.try_from line with
      | .ok opts => some opts
      | .error _ => none

/-- The sort comparator of `merge_similar` (src/config.rs:56-58,114-123):
`Ord` on (url, suite). -/
def mirrorLe (a b : MirrorOpts) : Bool :=
  decide (a.url < b.url) || (a.url == b.url && decide (a.suite ≤ b.suite))

/-- Merge one duplicate target into the accumulated one
(src/config.rs:62-88). -/
def mergeInto (last new : MirrorOpts) : MirrorOpts :=
  let components := new.components.foldl
    (fun cs c => if cs.contains c then cs else cs ++ [c]) last.components
  let arch := new.arch.foldl
    (fun cs c => if cs.contains c then cs else cs ++ [c]) last.arch
  let debian_installer_arch := new.debian_installer_arch.foldl
    (fun cs c => if cs.contains c then cs else cs ++ [c]) last.debian_installer_arch
  { last with
    components, arch, debian_installer_arch
    udeb := last.udeb || new.udeb
    packages := last.packages || new.packages
    source := last.source || new.source
    pgp_verify := last.pgp_verify || new.pgp_verify
    pgp_pub_key := match new.pgp_pub_key with
      | some k => some k
      | none => last.pgp_pub_key }

/-- One step of the merge fold of `merge_similar` (src/config.rs:59-97);
the accumulator is kept reversed so `last_mut` is the head.  Equality is
the source's `PartialEq`: same url and suite. -/
def mergeStep (acc : List MirrorOpts) (new : MirrorOpts) : List MirrorOpts :=
  match acc with
  | [] => [new]
  | last :: rest =>
    if last.url = new.url ∧ last.suite = new.suite then mergeInto last new :: rest
    else new :: last :: rest

/-- Embedding: `merge_similar` (src/config.rs:56-98); as with the sum files, the
stable `insertionSort` stands in for Rust's stable `sort`. -/
def merge_similar (mirrors : List MirrorOpts) : List MirrorOpts :=
  ((List.insertionSort (fun a b => mirrorLe a b = true) mirrors).foldl mergeStep []).reverse

/-- Embedding: `read_config` (src/config.rs:7-54) restricted to its pure core: the
file's lines are given; the loop collects the lines that parse, merges
duplicates, and fails only when nothing valid remains. -/
def read_config (lines : List String) : Except MirsError (List MirrorOpts) :=
  let mirrors := merge_similar (parsedMirrors lines)
  if mirrors.isEmpty then .error (.config "no valid repositories in config")
  else .ok mirrors

/-! ## The release step and the pipeline driver —
`src/mirror/step/release.rs`, `src/cmd.rs` -/

/-- Embedding: `MirrorResult` (src/mirror.rs:27-31). -/
inductive MirrorResult where
  | newRelease
  | releaseUnchanged
  | irrelevantChanges
deriving DecidableEq, Repr

/-- Embedding: `StepResult` (src/step.rs:9-12) for the mirror pipeline. -/
inductive StepResult where
  | cont
  | ended (r : MirrorResult)
deriving DecidableEq, Repr

/-- The state the `DownloadRelease` step reads: the successfully
downloaded release files, the repository directories, the force flag, the
filesystem, and the abstracted collaborators (SHA-512, signature
verification, manifest parsing). -/
structure ReleaseStepState where
  files : List FilePath
  tmpDir : FilePath
  rootDir : FilePath
  force : Bool
  pgpVerify : Bool
  keyStore : KeyStoreModel
  fs : Fs
  sha512 : List Nat → List Nat
  parseOutcome : Except MirsError Unit

/-- Embedding: `get_release_file` (src/mirror/step/release.rs:115-123): the first
downloaded file named `InRelease` or `Release`. -/
def get_release_file (files : List FilePath) : Option FilePath :=
  files.find? fun f => f.fileNameD == "InRelease" || f.fileNameD == "Release"

/-- Embedding: `Repository::tmp_to_root` (src/metadata/repository.rs:148-151). -/
def tmp_to_root (tmpDir rootDir : FilePath) (path : FilePath) : Option FilePath :=
  (strRemoveLeading tmpDir.val path.val).map fun v => rootDir.join v

/-- Embedding: `Checksum::checksum_file` (src/metadata/checksum.rs:93-109): always the
SHA-512 of the file's bytes; the I/O error of `File::open` maps to a
missing file. -/
def checksum_file (fs : Fs) (sha512 : List Nat → List Nat) (file : FilePath) :
    Except MirsError Checksum :=
  match fsGet? fs file.val with
  | some (.file bytes) => .ok (.sha512 (sha512 bytes))
  | _ => .error .ioFailure

/-- Embedding: `DownloadRelease::execute` (src/mirror/step/release.rs:21-112) from the
point the downloads have completed: optional signature verification, the
`NoReleaseFile` check, the unchanged-release early exit, then parsing. -/
def downloadReleaseExecute (st : ReleaseStepState) : Except MirsError StepResult := do
  let _ ←
    if st.pgpVerify then verify_release_signature st.files st.keyStore
    else .ok ()
  match get_release_file st.files with
  | none => .error .noReleaseFile
  | some release_file =>
    let checkOutcome ←
      match tmp_to_root st.tmpDir st.rootDir release_file with
      | some local_release_file =>
        if (fsGet? st.fs local_release_file.val).isSome && !st.force then do
          let tmp_checksum ← checksum_file st.fs st.sha512 local_release_file
          let local_checksum ← checksum_file st.fs st.sha512 release_file
          pure (decide (tmp_checksum = local_checksum))
        else pure false
      | none => pure false
    if checkOutcome then
      pure (StepResult.ended .releaseUnchanged)
    else do
      let _ ← st.parseOutcome
      pure StepResult.cont

/-- How a pipeline run ends (src/cmd.rs:87-109): a step ended it with a
result, a step errored, or every step continued. -/
inductive RunOutcome where
  | endedWith (r : MirrorResult)
  | errored (e : MirsError)
  | finalized
deriving Repr

/-- The step loop of `Cmd::run` (src/cmd.rs:92-108): execute the steps in
order, stopping at the first `End` or error; also returns the names of the
steps that were executed. -/
def runSteps (st : ReleaseStepState) :
    List (String × (ReleaseStepState → Except MirsError StepResult)) →
    RunOutcome × List String
  | [] => (.finalized, [])
  | (name, step) :: rest =>
    match step st with
    | .ok .cont =>
      let (r, names) := runSteps st rest
      (r, name :: names)
    | .ok (.ended result) => (.endedWith result, [name])
    | .error e => (.errored e, [name])

/-! ## Specification-side helpers for the redundancy-collapse claim -/

/-- The algorithm a path parses to, if any. -/
def sumAlgoOf? (p : FilePath) : Option SumAlgo :=
  match SumFile.try_from p with
  | .ok s => some s.algo
  | .error _ => none

/-- One step of the strongest-algorithm fold. -/
def maxStep (acc : Option SumAlgo) (a : SumAlgo) : Option SumAlgo :=
  match acc with
  | none => some a
  | some b => some (if b.rank < a.rank then a else b)

/-- The strongest algorithm of a list, `none` for the empty list. -/
def maxAlgo? (as : List SumAlgo) : Option SumAlgo :=
  as.foldl maxStep none

/-- The total sum file a path parses to, with an irrelevant default in the
error case (used only under an all-parse hypothesis). -/
def toSumD (p : FilePath) : SumFile :=
  match SumFile.try_from p with
  | .ok s => s
  | .error _ => ⟨.md5, p⟩

/-- The algorithms of the sum files of `l` lying in directory `d`. -/
def dirAlgos (l : List FilePath) (d : Option String) : List SumAlgo :=
  (l.filter (fun p => p.parent? == d)).filterMap sumAlgoOf?

/-- The survivor of one same-directory run of the dedup fold: `x` upgraded
through `g` by strictly-stronger replacement. -/
def bestOf (x : SumFile) (g : List SumFile) : SumFile :=
  g.foldl (fun b v => if v.strongerThan b then v else b) x

/-- Group maxima of a parent-sorted list: one `bestOf` per maximal run of
equal parents (fuelled structural recursion; `fuel ≥ length` suffices). -/
def groupMaximaF : Nat → List SumFile → List SumFile
  | 0, _ => []
  | _, [] => []
  | fuel + 1, x :: xs =>
    bestOf x (xs.takeWhile (fun y => y.path.parent? == x.path.parent?)) ::
      groupMaximaF fuel (xs.dropWhile (fun y => y.path.parent? == x.path.parent?))

/-- The sortedness property delivered by the parent sort, on parsed sum
files. -/
def SortedParents (s : List SumFile) : Prop :=
  List.Sorted (fun a b => parentLe a.path b.path = true) s

/-! ## Concrete fixtures used by the witnesses -/

/-- A keystore whose cryptographic checks always succeed. -/
def alwaysOkKeyStore : KeyStoreModel :=
  ⟨fun _ => .ok (), fun _ _ => .ok ()⟩

/-- A concrete state for the unchanged-release witness: the committed
`InRelease` and the freshly downloaded one hold the same bytes. -/
def c5State : ReleaseStepState where
  files := [⟨"out/.tmp/host_b/dists/bookworm/InRelease"⟩]
  tmpDir := ⟨"out/.tmp/host_b"⟩
  rootDir := ⟨"out/host"⟩
  force := false
  pgpVerify := false
  keyStore := alwaysOkKeyStore
  fs := [("out/host/dists/bookworm/InRelease", .file [1, 2, 3]),
         ("out/.tmp/host_b/dists/bookworm/InRelease", .file [1, 2, 3])]
  sha512 := fun bytes => bytes
  parseOutcome := .ok ()

/-! ## Theorems -/

/-- C1: with PGP verification requested and `InRelease` absent,
`verify_release_signature` fails with `PgpNotSupported` even though both
`Release` and `Release.gpg` (the names `release_urls` enqueues, shown by
the first conjunct) were downloaded, because the source searches for a
file named `Release.pgp`, which `release_urls` never produces — so the
detached-signature path is unreachable even with a keystore whose checks
always succeed. -/
theorem c1_detached_verification_unreachable :
    ((release_urls "http://deb.example.org/debian/dists/bookworm").map
        (fun u => (to_path_in_local_dir "http://deb.example.org/debian"
          ⟨"out/.tmp/deb.example.org_debian_bookworm"⟩ u).map FilePath.fileNameD)) =
      [some "InRelease", some "Release", some "Release.gpg"] ∧
    verify_release_signature
      [⟨"out/.tmp/deb.example.org_debian_bookworm/dists/bookworm/Release"⟩,
       ⟨"out/.tmp/deb.example.org_debian_bookworm/dists/bookworm/Release.gpg"⟩]
      alwaysOkKeyStore = .error .pgpNotSupported := by
  exact ⟨rfl, rfl⟩

/-- C2 counterexample: the claim assigns a download error to a `failed`
counter and reserves `skipped` for already-present files, but the worker
outcome step of `Downloader::build` increments `skipped` on an error
(`ProgressPart` has no `failed` counter at all). -/
theorem c2_error_increments_skipped :
    workerStep DlOutcome.err ProgressPart.new = ⟨0, 0, 1⟩ ∧
    (workerStep DlOutcome.err ProgressPart.new).skipped ≠ ProgressPart.new.skipped := by
  exact ⟨rfl, by decide⟩

/-- C3: `ChecksumType::is_stronger` returns `true` for every input, so the
paragraph scan of `PackagesFile::next` keeps the last checksum field of
the paragraph, not the strongest: a paragraph listing `SHA512` before
`MD5Sum` emits the MD5 checksum. -/
theorem c3_last_hash_wins :
    (∀ (first : Option Checksum) (second : ChecksumType),
        ChecksumType.is_stronger first second = true) ∧
    pkgParagraphEntry ["Package: a", "Filename: pool/main/a/a_1.0_amd64.deb", "Size: 4",
        "SHA512: " ++ String.mk (List.replicate 128 'a'),
        "MD5Sum: 00112233445566778899aabbccddeeff"] =
      .ok (some { path := "pool/main/a/a_1.0_amd64.deb", size := some 4,
                  checksum := some (.md5 [0, 17, 34, 51, 68, 85, 102, 119,
                                          136, 153, 170, 187, 204, 221, 238, 255]) }) := by
  refine ⟨fun first second => ?_, rfl⟩
  cases second <;> rfl

/-- C7 counterexample: the older `download_file` copy in
`src/mirror/downloader.rs` returns the `Download` error on a 404 but does
not remove the destination file it created — the (empty) destination is
left in place at the primary target path. -/
theorem c7_mirror_copy_leaves_destination :
    (mirror_download_file (fun _ b => b) (fun a _ => a) []
        { url := "http://example.com/pool/a.deb", size := none, checksum := none,
          primary_target_path := ⟨"out/pool/a.deb"⟩, symlink_paths := [],
          always_download := true }
        ⟨404, []⟩).2 = .error (.download "http://example.com/pool/a.deb" 404) ∧
    fsGet? (mirror_download_file (fun _ b => b) (fun a _ => a) []
        { url := "http://example.com/pool/a.deb", size := none, checksum := none,
          primary_target_path := ⟨"out/pool/a.deb"⟩, symlink_paths := [],
          always_download := true }
        ⟨404, []⟩).1 "out/pool/a.deb" = some (.file []) := by
  exact ⟨rfl, rfl⟩

/-- C8 counterexample: a config file with one malformed mirror line
(`"deb"`, which fails with `no url specified`) and one valid line is not
fatal — `read_config` returns the valid mirror list instead of a `Config`
error. -/
theorem c8_malformed_line_not_fatal :
    MirrorOpts.try_from (preprocessLine "deb") = .error (.config "no url specified") ∧
    read_config ["deb http://example.com bookworm main", "deb"] =
      .ok [{ url := "http://example.com", suite := "bookworm", components := ["main"],
             arch := ["amd64"], debian_installer_arch := [], source := false,
             packages := true, pgp_pub_key := none, pgp_verify := false, udeb := false }] := by
  exact ⟨rfl, rfl⟩

/-- C10 counterexample: at the counter state
`total = 0, success = skipped = 2 ^ 63` — a state in which
`success + skipped` exceeds `total` — the wrapped value
`(total - success - skipped) mod 2 ^ 64` is exactly `0`, so `remaining()`
returns `0` and `wait_for_completion` does observe completion, contrary to
the claim's unconditional "rather than 0". -/
theorem c10_wrap_can_hit_zero :
    (ProgressPart.mk 0 (2 ^ 63) (2 ^ 63)).total <
      (ProgressPart.mk 0 (2 ^ 63) (2 ^ 63)).success +
        (ProgressPart.mk 0 (2 ^ 63) (2 ^ 63)).skipped ∧
    ProgressPart.remaining ⟨0, 2 ^ 63, 2 ^ 63⟩ = 0 ∧
    waitObservesCompletion ⟨0, 2 ^ 63, 2 ^ 63⟩ = true := by
  refine ⟨by positivity, ?_, ?_⟩ <;> decide

/-- C9: classification of a manifest-listed path is partial exactly as the
underlying `FilePath::file_stem` panic is: `MetadataFile::from` succeeds
precisely on paths with a final file-name component, and in particular
panics (modelled as `none`) on the empty string and on a path ending in
`..`. -/
theorem c9_classification_partial :
    (∀ value : String, (MetadataFile.from? value).isSome ↔ (rustFileName? value).isSome) ∧
    MetadataFile.from? "" = none ∧ MetadataFile.from? "foo/.." = none := by
  refine ⟨fun value => ?_, rfl, rfl⟩
  cases h : rustFileName? value with
  | none =>
    simp [MetadataFile.from?, is_packages_file?, rustFileStem?, h]
  | some n =>
    simp only [MetadataFile.from?, is_packages_file?, is_sources_file?,
      is_diff_index_file?, is_debian_installer_sumfile?, rustFileStem?, h, Option.map_some]
    (repeat' split) <;> simp_all

/-- The counter state after `n` enqueues. -/
theorem queueFold_eq : ∀ (n : Nat) (c : ProgressPart),
    queueN n c = ⟨c.total + n, c.success, c.skipped⟩ := by
  intro n
  induction n with
  | zero => intro c; rfl
  | succ n ih =>
    intro c
    simp only [queueN, queueStep, ProgressPart.inc_total, ih]
    simp [Nat.add_comm, Nat.add_assoc, Nat.add_left_comm]

/-- Worker outcomes preserve `total` and add exactly one to
`success + skipped` each. -/
theorem workerFold_spec (outs : List DlOutcome) : ∀ c : ProgressPart,
    (outs.foldl (fun c o => workerStep o c) c).total = c.total ∧
    (outs.foldl (fun c o => workerStep o c) c).success +
        (outs.foldl (fun c o => workerStep o c) c).skipped =
      c.success + c.skipped + outs.length := by
  induction outs with
  | nil => intro c; simp
  | cons o os ih =>
    intro c
    have h := ih (workerStep o c)
    cases o <;>
      simp only [workerStep, ProgressPart.inc_success, ProgressPart.inc_skipped,
        List.foldl_cons, List.length_cons] at h ⊢ <;>
      omega

/-- C2 (amended): for every batch of queued requests, `total` increments by
one on each enqueue and exactly one of `success` or `skipped` increments at
each terminal outcome — a download or checksum error counts as `skipped`,
there being no `failed` counter — so at the stage boundary
`total = success + skipped`. -/
theorem c2_total_eq_success_add_skipped (n : Nat) (outcomes : List DlOutcome)
    (h : outcomes.length = n) :
    (runCounters n outcomes).total = n ∧
    (runCounters n outcomes).total =
      (runCounters n outcomes).success + (runCounters n outcomes).skipped := by
  have hq := queueFold_eq n ProgressPart.new
  obtain ⟨hw1, hw2⟩ := workerFold_spec outcomes (⟨0 + n, 0, 0⟩ : ProgressPart)
  rw [h] at hw2
  unfold runCounters
  rw [hq]
  simp only [ProgressPart.new] at *
  omega

/-- Witness for C2: three enqueues with one success, one skip and one
error balance exactly. -/
theorem c2_witness :
    [DlOutcome.downloaded, DlOutcome.alreadyPresent, DlOutcome.err].length = 3 ∧
    ((runCounters 3 [DlOutcome.downloaded, DlOutcome.alreadyPresent, DlOutcome.err]).total = 3 ∧
      (runCounters 3 [DlOutcome.downloaded, DlOutcome.alreadyPresent, DlOutcome.err]).total =
        (runCounters 3 [DlOutcome.downloaded, DlOutcome.alreadyPresent, DlOutcome.err]).success +
          (runCounters 3 [DlOutcome.downloaded, DlOutcome.alreadyPresent, DlOutcome.err]).skipped) :=
  ⟨by decide, c2_total_eq_success_add_skipped 3 _ (by decide)⟩

/-- C10 (amended): whenever `success + skipped` exceeds `total` by an
amount that is not a multiple of `2 ^ 64`, `remaining()` equals the
wrapped value `(total - success - skipped) mod 2 ^ 64`, which is nonzero,
so the polling loop of `wait_for_completion` does not observe completion;
moreover the direct `Downloader::download` path increments `success` or
`skipped` without touching `total`, which makes such states reachable. -/
theorem c10_remaining_wraps (t s k : Nat) (ht : t < u64Mod) (hs : s < u64Mod)
    (hk : k < u64Mod) (hlt : t < s + k) (hne : s + k - t ≠ u64Mod) :
    ProgressPart.remaining ⟨t, s, k⟩ = (((t : Int) - s - k) % (u64Mod : Int)).toNat ∧
    ProgressPart.remaining ⟨t, s, k⟩ ≠ 0 ∧
    waitObservesCompletion ⟨t, s, k⟩ = false ∧
    ∀ (o : DlOutcome) (c : ProgressPart),
      (downloadStep o c).total = c.total ∧
      (downloadStep o c).success + (downloadStep o c).skipped = c.success + c.skipped + 1 := by
  have hrem : ProgressPart.remaining ⟨t, s, k⟩ = (((t : Int) - s - k) % (u64Mod : Int)).toNat := by
    simp only [ProgressPart.remaining, wsub, u64Mod] at *
    omega
  have hnz : ProgressPart.remaining ⟨t, s, k⟩ ≠ 0 := by
    simp only [ProgressPart.remaining, wsub, u64Mod] at *
    omega
  refine ⟨hrem, hnz, ?_, ?_⟩
  · simp only [waitObservesCompletion, beq_eq_false_iff_ne, ne_eq]
    exact hnz
  · intro o c
    cases o <;>
      simp [downloadStep, workerStep, ProgressPart.inc_success, ProgressPart.inc_skipped] <;>
      omega

/-- Witness for C10: one successful direct download with nothing enqueued
leaves `total = 0 < 1 = success + skipped` and a wrapped `remaining`. -/
theorem c10_witness :
    (0 < u64Mod ∧ 1 < u64Mod ∧ 0 < u64Mod ∧ (0 : Nat) < 1 + 0 ∧ 1 + 0 - 0 ≠ u64Mod) ∧
    (ProgressPart.remaining ⟨0, 1, 0⟩ = (((0 : Int) - 1 - 0) % (u64Mod : Int)).toNat ∧
      ProgressPart.remaining ⟨0, 1, 0⟩ ≠ 0 ∧
      waitObservesCompletion ⟨0, 1, 0⟩ = false ∧
      ∀ (o : DlOutcome) (c : ProgressPart),
        (downloadStep o c).total = c.total ∧
        (downloadStep o c).success + (downloadStep o c).skipped = c.success + c.skipped + 1) :=
  ⟨⟨by decide, by decide, by decide, by decide, by decide⟩,
    c10_remaining_wraps 0 1 0 (by decide) (by decide) (by decide) (by decide) (by decide)⟩

/-- Removing a path removes its entry. -/
theorem fsGet?_fsRemove (fs : Fs) (p : String) : fsGet? (fsRemove fs p) p = none := by
  induction fs with
  | nil => rfl
  | cons hd tl ih =>
    by_cases h : hd.1 = p
    · simpa [fsRemove, List.filter_cons, h] using ih
    · simp only [fsRemove, List.filter_cons] at ih ⊢
      simp only [fsGet?, List.find?_cons] at ih ⊢
      simp [h, ih]

/-- C7 (amended): in the worker-pool `download_file` of `src/downloader.rs`,
a request that reaches the HTTP GET and receives a 404 yields an error of
the `Download` category and the destination file created for it is
removed, leaving nothing at the primary target path; the older copy in
`src/mirror/downloader.rs` returns the same error but leaves the created
destination file in place. -/
theorem c7_404_removes_destination (hash : HashImpl)
    (diffPaths : String → String → String) (fs : Fs) (dl : Download) (resp : HttpResponse)
    (hneeds : needs_downloading fs dl = true)
    (hsize : dl.size.elim true (fun v => v > 0) = true)
    (h404 : resp.status = 404) :
    (download_file hash diffPaths fs dl resp).2 = .error (.download dl.url resp.status) ∧
    MirsError.isDownload (.download dl.url resp.status) = true ∧
    fsGet? (download_file hash diffPaths fs dl resp).1 dl.primary_target_path.val = none := by
  have hrun : download_file hash diffPaths fs dl resp =
      (fsRemove (fsPut fs dl.primary_target_path.val (.file [])) dl.primary_target_path.val,
        .error (.download dl.url resp.status)) := by
    simp [download_file, hneeds, hsize, h404]
  refine ⟨by rw [hrun], rfl, ?_⟩
  rw [hrun]
  exact fsGet?_fsRemove _ _

/-- Witness for C7: a fresh always-fetch request against an empty tree,
served a 404. -/
theorem c7_witness :
    (needs_downloading []
        { url := "http://example.com/pool/a.deb", size := none, checksum := none,
          primary_target_path := ⟨"out/pool/a.deb"⟩, symlink_paths := [],
          always_download := true } = true ∧
      (Option.elim (none : Option Nat) true (fun v => v > 0)) = true ∧
      (HttpResponse.mk 404 []).status = 404) ∧
    ((download_file (fun _ b => b) (fun a _ => a) []
        { url := "http://example.com/pool/a.deb", size := none, checksum := none,
          primary_target_path := ⟨"out/pool/a.deb"⟩, symlink_paths := [],
          always_download := true } ⟨404, []⟩).2 =
          .error (.download "http://example.com/pool/a.deb" 404) ∧
      MirsError.isDownload (.download "http://example.com/pool/a.deb" 404) = true ∧
      fsGet? (download_file (fun _ b => b) (fun a _ => a) []
        { url := "http://example.com/pool/a.deb", size := none, checksum := none,
          primary_target_path := ⟨"out/pool/a.deb"⟩, symlink_paths := [],
          always_download := true } ⟨404, []⟩).1 "out/pool/a.deb" = none) :=
  ⟨⟨by decide, by decide, rfl⟩,
    c7_404_removes_destination (fun _ b => b) (fun a _ => a) [] _ _ (by decide) (by decide) rfl⟩

/-- The merge fold never empties a nonempty start, and a nonempty input
populates an empty start. -/
theorem foldl_mergeStep_ne_nil (l : List MirrorOpts) :
    ∀ acc : List MirrorOpts, acc ≠ [] ∨ l ≠ [] → l.foldl mergeStep acc ≠ [] := by
  induction l with
  | nil => intro acc h; simpa using h
  | cons x xs ih =>
    intro acc _
    apply ih
    left
    cases acc with
    | nil => simp [mergeStep]
    | cons a as =>
      simp only [mergeStep]
      split <;> simp

/-- Lemma: `merge_similar` returns an empty list exactly on an empty input. -/
theorem merge_similar_eq_nil_iff (l : List MirrorOpts) : merge_similar l = [] ↔ l = [] := by
  constructor
  · intro h
    by_contra hne
    have hs : List.insertionSort (fun a b => mirrorLe a b = true) l ≠ [] := by
      intro hnil
      have hp := List.perm_insertionSort (fun a b => mirrorLe a b = true) l
      rw [hnil] at hp
      exact hne hp.symm.eq_nil
    have := foldl_mergeStep_ne_nil
      (List.insertionSort (fun a b => mirrorLe a b = true) l) [] (Or.inr hs)
    simp only [merge_similar] at h
    exact this (by simpa using congrArg List.reverse h)
  · intro h
    subst h
    rfl

/-- C8 (amended): a malformed mirror line is skipped with a warning rather
than being fatal — `read_config` succeeds exactly when at least one line
parses to a mirror, and returns the `Config` error
`no valid repositories in config` when none does. -/
theorem c8_error_iff_no_valid_line (lines : List String) :
    ((∃ ms, read_config lines = .ok ms) ↔ parsedMirrors lines ≠ []) ∧
    (parsedMirrors lines = [] →
      read_config lines = .error (.config "no valid repositories in config")) := by
  constructor
  · constructor
    · rintro ⟨ms, hms⟩ hnil
      rw [read_config, hnil] at hms
      simp [merge_similar_eq_nil_iff] at hms
    · intro hne
      refine ⟨merge_similar (parsedMirrors lines), ?_⟩
      rw [read_config]
      have : ¬ merge_similar (parsedMirrors lines) = [] := by
        simpa [merge_similar_eq_nil_iff] using hne
      simp [List.isEmpty_iff, this]
  · intro hnil
    rw [read_config, hnil]
    simp [merge_similar_eq_nil_iff]

/-- Witness for C8: a comment-only config yields the `Config` error. -/
theorem c8_witness :
    parsedMirrors ["# only a comment"] = [] ∧
    read_config ["# only a comment"] = .error (.config "no valid repositories in config") :=
  ⟨by decide, (c8_error_iff_no_valid_line ["# only a comment"]).2 (by decide)⟩

/-- C4: when Acquire-By-Hash is active, the download request built from a
manifest entry with at least one hash (strongest-first checksum list
`c :: rest`) has the by-hash path of the strongest hash — the parent
directory joined with `by-hash/<algo>/<hex>` — as its primary path, and
its symlink paths are exactly the human-readable name followed by the
by-hash path of each weaker hash present. -/
theorem c4_by_hash_request (e : FileEntry) (url : String) (fp : FilePath)
    (c : Checksum) (rest : List Checksum) (h : e.checksums = c :: rest) :
    create_metadata_download url fp e true =
      .ok { url := url
            size := some e.size
            checksum := e.strongest_hash
            primary_target_path := FilePath.join ⟨fp.parent?.getD ""⟩ c.relative_path
            symlink_paths :=
              fp :: rest.map (fun w => FilePath.join ⟨fp.parent?.getD ""⟩ w.relative_path)
            always_download := false } ∧
    e.strongest_hash = some c := by
  obtain ⟨sz, m, s1, s2, s5⟩ := e
  cases m <;> cases s1 <;> cases s2 <;> cases s5 <;>
    simp only [FileEntry.checksums, Option.toList_some, Option.toList_none, Option.map_some,
      Option.map_none, List.nil_append, List.append_nil, List.cons_append,
      List.cons.injEq] at h <;>
    first
    | exact absurd h.symm (List.cons_ne_nil c rest)
    | (obtain ⟨rfl, rfl⟩ := h
       refine ⟨?_, ?_⟩ <;>
         simp [create_metadata_download, FileEntry.into_paths, FileEntry.strongest_hash,
           FileEntryChecksumIterator.new, FileEntryChecksumIterator.next, iterScan,
           iterScanAux, FileEntry.takeAt, collectWeakerPaths])

/-- Witness for C4: an entry with SHA-256 and MD5 produces the SHA-256
by-hash primary and symlinks for the readable name and the MD5 by-hash
path. -/
theorem c4_witness :
    (FileEntry.checksums
        { size := 7, md5 := some (List.replicate 16 0), sha1 := none,
          sha256 := some (List.replicate 32 1), sha512 := none } =
      Checksum.sha256 (List.replicate 32 1) :: [Checksum.md5 (List.replicate 16 0)]) ∧
    (create_metadata_download "http://u/d/f" ⟨"tmp/d/f"⟩
        { size := 7, md5 := some (List.replicate 16 0), sha1 := none,
          sha256 := some (List.replicate 32 1), sha512 := none } true =
      .ok { url := "http://u/d/f"
            size := some 7
            checksum := FileEntry.strongest_hash
              { size := 7, md5 := some (List.replicate 16 0), sha1 := none,
                sha256 := some (List.replicate 32 1), sha512 := none }
            primary_target_path := FilePath.join ⟨(FilePath.mk "tmp/d/f").parent?.getD ""⟩
              (Checksum.sha256 (List.replicate 32 1)).relative_path
            symlink_paths := FilePath.mk "tmp/d/f" ::
              [Checksum.md5 (List.replicate 16 0)].map
                (fun w => FilePath.join ⟨(FilePath.mk "tmp/d/f").parent?.getD ""⟩ w.relative_path)
            always_download := false } ∧
      FileEntry.strongest_hash
          { size := 7, md5 := some (List.replicate 16 0), sha1 := none,
            sha256 := some (List.replicate 32 1), sha512 := none } =
        some (Checksum.sha256 (List.replicate 32 1))) :=
  ⟨by decide, c4_by_hash_request _ "http://u/d/f" ⟨"tmp/d/f"⟩ _ _ (by decide)⟩

/-- C5: in the `DownloadRelease` step, when the force flag is not set and a
committed release file exists under `root_dir` whose SHA-512 digest equals
that of the newly downloaded release file, the step ends with
`ReleaseUnchanged`, and the pipeline driver executes no later step. -/
theorem c5_release_unchanged (st : ReleaseStepState) (rf lp : FilePath)
    (oldBytes newBytes : List Nat)
    (rest : List (String × (ReleaseStepState → Except MirsError StepResult)))
    (hpgp : st.pgpVerify = false)
    (hforce : st.force = false)
    (hrf : get_release_file st.files = some rf)
    (hlp : tmp_to_root st.tmpDir st.rootDir rf = some lp)
    (hold : fsGet? st.fs lp.val = some (.file oldBytes))
    (hnew : fsGet? st.fs rf.val = some (.file newBytes))
    (hdig : st.sha512 oldBytes = st.sha512 newBytes) :
    downloadReleaseExecute st = .ok (StepResult.ended .releaseUnchanged) ∧
    runSteps st (("Downloading release", downloadReleaseExecute) :: rest) =
      (RunOutcome.endedWith .releaseUnchanged, ["Downloading release"]) := by
  have hexec : downloadReleaseExecute st = .ok (StepResult.ended .releaseUnchanged) := by
    simp [downloadReleaseExecute, hpgp, hrf, hlp, hold, hforce, checksum_file, hnew, hdig,
      bind, Except.bind, pure, Except.pure]
  exact ⟨hexec, by simp [runSteps, hexec]⟩

/-- Witness for C5: a committed `InRelease` byte-identical to the freshly
downloaded one (state `c5State`) ends the run with `ReleaseUnchanged` and
an arbitrary later step (here one named "later") never executes. -/
theorem c5_witness :
    (c5State.pgpVerify = false ∧ c5State.force = false ∧
      get_release_file c5State.files = some ⟨"out/.tmp/host_b/dists/bookworm/InRelease"⟩ ∧
      tmp_to_root c5State.tmpDir c5State.rootDir ⟨"out/.tmp/host_b/dists/bookworm/InRelease"⟩ =
        some ⟨"out/host/dists/bookworm/InRelease"⟩ ∧
      fsGet? c5State.fs "out/host/dists/bookworm/InRelease" = some (.file [1, 2, 3]) ∧
      fsGet? c5State.fs "out/.tmp/host_b/dists/bookworm/InRelease" = some (.file [1, 2, 3])) ∧
    (downloadReleaseExecute c5State = .ok (StepResult.ended .releaseUnchanged) ∧
      runSteps c5State
          [("Downloading release", downloadReleaseExecute),
           ("later", fun _ => .ok StepResult.cont)] =
        (RunOutcome.endedWith .releaseUnchanged, ["Downloading release"])) :=
  ⟨⟨rfl, rfl, by decide, by decide, by decide, by decide⟩,
    c5_release_unchanged c5State ⟨"out/.tmp/host_b/dists/bookworm/InRelease"⟩
      ⟨"out/host/dists/bookworm/InRelease"⟩ [1, 2, 3] [1, 2, 3]
      [("later", fun _ => .ok StepResult.cont)]
      rfl rfl (by decide) (by decide) (by decide) (by decide) rfl⟩

/-! ### The redundancy collapse (C6) -/

/-- The lexicographic order is total. -/
theorem charListLe_total : ∀ x y, charListLe x y = true ∨ charListLe y x = true := by
  intro x
  induction x with
  | nil => intro y; left; rfl
  | cons c cs ih =>
    intro y
    cases y with
    | nil => right; rfl
    | cons d ds =>
      by_cases h1 : c.toNat < d.toNat
      · left; simp [charListLe, h1]
      · by_cases h2 : d.toNat < c.toNat
        · right; simp [charListLe, h1, h2]
        · rcases ih ds with h | h
          · left; simp [charListLe, h1, h2, h]
          · right; simp [charListLe, h1, h2, h]

/-- The lexicographic order is transitive. -/
theorem charListLe_trans : ∀ x y z, charListLe x y = true → charListLe y z = true →
    charListLe x z = true := by
  intro x
  induction x with
  | nil => intro y z _ _; rfl
  | cons c cs ih =>
    intro y z h1 h2
    cases y with
    | nil => simp [charListLe] at h1
    | cons d ds =>
      cases z with
      | nil => simp [charListLe] at h2
      | cons e es =>
        simp only [charListLe] at h1 h2 ⊢
        split_ifs at h1 h2 ⊢ <;> try omega
        all_goals first
          | rfl
          | exact ih ds es h1 h2

/-- The lexicographic order is antisymmetric. -/
theorem charListLe_antisymm : ∀ x y, charListLe x y = true → charListLe y x = true →
    x = y := by
  intro x
  induction x with
  | nil =>
    intro y _ h2
    cases y with
    | nil => rfl
    | cons d ds => simp [charListLe] at h2
  | cons c cs ih =>
    intro y h1 h2
    cases y with
    | nil => simp [charListLe] at h1
    | cons d ds =>
      simp only [charListLe] at h1 h2
      split_ifs at h1 h2 <;> try omega
      have htn : c.toNat = d.toNat := by omega
      have hcd : c = d := Char.ext (UInt32.toNat.inj htn)
      rw [hcd, ih ds h1 h2]

/-- Strings with equal character lists are equal. -/
theorem stringEqOfToList {x y : String} (h : x.toList = y.toList) : x = y := by
  cases x
  cases y
  simp only [String.toList] at h
  rw [h]

/-- Lemma: `parentLe` is total. -/
theorem parentLe_total (a b : FilePath) : parentLe a b = true ∨ parentLe b a = true := by
  unfold parentLe
  rcases a.parent? with _ | x <;> rcases b.parent? with _ | y <;> try simp
  exact charListLe_total x.toList y.toList

/-- Lemma: `parentLe` is transitive. -/
theorem parentLe_trans {a b c : FilePath} (h1 : parentLe a b = true)
    (h2 : parentLe b c = true) : parentLe a c = true := by
  unfold parentLe at *
  cases hpa : a.parent? <;> cases hpb : b.parent? <;> cases hpc : c.parent? <;>
    simp only [hpa, hpb, hpc] at h1 h2 ⊢ <;> try simp_all
  exact charListLe_trans _ _ _ h1 h2

/-- Lemma: `parentLe` both ways forces equal parents. -/
theorem parentLe_antisymm {a b : FilePath} (h1 : parentLe a b = true)
    (h2 : parentLe b a = true) : a.parent? = b.parent? := by
  unfold parentLe at *
  cases hpa : a.parent? <;> cases hpb : b.parent? <;>
    simp only [hpa, hpb] at h1 h2 ⊢ <;> try simp_all
  exact stringEqOfToList (charListLe_antisymm _ _ h1 h2)

/-- Lemma: `parentLe` only inspects the parents (left congruence). -/
theorem parentLe_congr_left {a a' b : FilePath} (h : a.parent? = a'.parent?) :
    parentLe a b = parentLe a' b := by
  unfold parentLe
  rw [h]

instance : IsTotal FilePath (fun a b => parentLe a b = true) := ⟨parentLe_total⟩

instance : IsTrans FilePath (fun a b => parentLe a b = true) := ⟨fun _ _ _ => parentLe_trans⟩

instance : RightCommutative maxStep := by
  refine ⟨fun b a1 a2 => ?_⟩
  rcases b with _ | b
  · cases a1 <;> cases a2 <;> rfl
  · cases b <;> cases a1 <;> cases a2 <;> rfl

/-- A successful `SumFile::try_from` keeps the path. -/
theorem try_from_path {p : FilePath} {s : SumFile} (h : SumFile.try_from p = .ok s) :
    s.path = p := by
  unfold SumFile.try_from at h
  split at h
  · simp at h
  · split at h <;>
      first
      | ((injection h with h2) <;> (subst h2; rfl))
      | simp at h

/-- Lemma: `toSumD` keeps the path. -/
theorem toSumD_path (p : FilePath) : (toSumD p).path = p := by
  unfold toSumD
  split
  · exact try_from_path (by assumption)
  · rfl

/-- On parsable paths, `try_from` returns `toSumD`. -/
theorem try_from_eq_toSumD {p : FilePath} (h : (sumAlgoOf? p).isSome) :
    SumFile.try_from p = .ok (toSumD p) := by
  unfold sumAlgoOf? at h
  unfold toSumD
  cases h' : SumFile.try_from p <;> simp [h'] at h ⊢

/-- On parsable paths, the algorithm of `toSumD` is the parsed one. -/
theorem sumAlgoOf?_eq_toSumD {p : FilePath} (h : (sumAlgoOf? p).isSome) :
    sumAlgoOf? p = some (toSumD p).algo := by
  unfold sumAlgoOf? at h ⊢
  unfold toSumD
  cases h' : SumFile.try_from p <;> simp [h'] at h ⊢

/-- On all-parsable input the parse loop is a plain map. -/
theorem parseSumFiles_eq_map : ∀ (l : List FilePath),
    (∀ p ∈ l, (sumAlgoOf? p).isSome) → parseSumFiles l = .ok (l.map toSumD) := by
  intro l
  induction l with
  | nil => intro _; rfl
  | cons p ps ih =>
    intro h
    have hp := try_from_eq_toSumD (h p (by simp))
    have hps := ih (fun q hq => h q (by simp [hq]))
    simp [parseSumFiles, hp, hps, bind, Except.bind, pure, Except.pure]

/-- The dedup fold only ever touches the head of the (reversed)
accumulator: a tail below the head passes through unchanged. -/
theorem foldl_dedup_shift : ∀ (l : List SumFile) (h : SumFile) (t : List SumFile),
    l.foldl sumDedupStep (h :: t) = l.foldl sumDedupStep [h] ++ t := by
  intro l
  induction l with
  | nil => intro h t; rfl
  | cons v vs ih =>
    intro h t
    simp only [List.foldl_cons]
    by_cases hp : h.path.parent? = v.path.parent?
    · by_cases hs : v.strongerThan h = true
      · rw [show sumDedupStep (h :: t) v = v :: t by simp [sumDedupStep, hp, hs],
            show sumDedupStep [h] v = [v] by simp [sumDedupStep, hp, hs]]
        exact ih v t
      · rw [show sumDedupStep (h :: t) v = h :: t by simp [sumDedupStep, hp, hs],
            show sumDedupStep [h] v = [h] by simp [sumDedupStep, hp, hs]]
        exact ih h t
    · rw [show sumDedupStep (h :: t) v = v :: h :: t by simp [sumDedupStep, hp],
          show sumDedupStep [h] v = [v, h] by simp [sumDedupStep, hp]]
      rw [ih v (h :: t), ih v [h]]
      simp

/-- Over a run of files sharing the head's parent, the dedup fold keeps
exactly the strongest, `bestOf`. -/
theorem foldl_group : ∀ (g : List SumFile) (x : SumFile) (t : List SumFile),
    (∀ y ∈ g, y.path.parent? = x.path.parent?) →
    g.foldl sumDedupStep (x :: t) = bestOf x g :: t := by
  intro g
  induction g with
  | nil => intro x t _; rfl
  | cons y g' ih =>
    intro x t hg
    have hy : y.path.parent? = x.path.parent? := hg y (by simp)
    simp only [List.foldl_cons]
    have hstep : sumDedupStep (x :: t) y = (if y.strongerThan x then y else x) :: t := by
      by_cases hs : y.strongerThan x = true <;> simp [sumDedupStep, hy.symm, hs]
    have hbest : bestOf x (y :: g') = bestOf (if y.strongerThan x then y else x) g' := by
      simp [bestOf, List.foldl_cons]
    rw [hstep, hbest]
    apply ih
    intro z hz
    have hxy : (if y.strongerThan x then y else x).path.parent? = x.path.parent? := by
      split <;> simp [hy]
    rw [hxy]
    exact hg z (by simp [hz])

/-- Lemma: `bestOf` stays inside the run. -/
theorem bestOf_mem : ∀ (g : List SumFile) (x : SumFile), bestOf x g ∈ x :: g := by
  intro g
  induction g with
  | nil => intro x; simp [bestOf]
  | cons y g' ih =>
    intro x
    have hbest : bestOf x (y :: g') = bestOf (if y.strongerThan x then y else x) g' := by
      simp [bestOf, List.foldl_cons]
    rw [hbest]
    have := ih (if y.strongerThan x then y else x)
    rcases List.mem_cons.mp this with h | h
    · rw [h]
      split <;> simp
    · simp [h]

/-- Lemma: `bestOf` has the run's parent. -/
theorem bestOf_parent (g : List SumFile) (x : SumFile)
    (hg : ∀ y ∈ g, y.path.parent? = x.path.parent?) :
    (bestOf x g).path.parent? = x.path.parent? := by
  rcases List.mem_cons.mp (bestOf_mem g x) with h | h
  · rw [h]
  · exact hg _ h

/-- The algorithm of `bestOf` is the fold of the rank maximum over the
run's algorithms. -/
theorem bestOf_algo : ∀ (g : List SumFile) (x : SumFile),
    (bestOf x g).algo =
      (g.map SumFile.algo).foldl (fun b a => if b.rank < a.rank then a else b) x.algo := by
  intro g
  induction g with
  | nil => intro x; rfl
  | cons y g' ih =>
    intro x
    have hbest : bestOf x (y :: g') = bestOf (if y.strongerThan x then y else x) g' := by
      simp [bestOf, List.foldl_cons]
    rw [hbest]
    simp only [List.map_cons, List.foldl_cons]
    rw [ih]
    congr 1
    by_cases hs : x.algo.rank < y.algo.rank <;>
      simp [SumFile.strongerThan, hs]

/-- Lemma: `maxAlgo?` of a nonempty list is the bare rank-maximum fold. -/
theorem maxAlgo?_cons (a : SumAlgo) (as : List SumAlgo) :
    maxAlgo? (a :: as) =
      some (as.foldl (fun b a' => if b.rank < a'.rank then a' else b) a) := by
  suffices h : ∀ (as : List SumAlgo) (b : SumAlgo),
      as.foldl maxStep (some b) =
        some (as.foldl (fun b a' => if b.rank < a'.rank then a' else b) b) by
    simpa [maxAlgo?, maxStep] using h as a
  intro as
  induction as with
  | nil => intro b; rfl
  | cons a' as' ih =>
    intro b
    simp only [List.foldl_cons, maxStep]
    exact ih _

/-- The head of a nonempty `dropWhile` result fails the predicate. -/
theorem dropWhile_head_false {α : Type} (p : α → Bool) :
    ∀ (l : List α) (y : α) (ys : List α), l.dropWhile p = y :: ys → p y = false := by
  intro l
  induction l with
  | nil => intro y ys h; simp at h
  | cons a l' ih =>
    intro y ys h
    rw [List.dropWhile_cons] at h
    by_cases ha : p a = true
    · exact ih y ys (by simpa [ha] using h)
    · rw [if_neg ha] at h
      obtain ⟨rfl, -⟩ := List.cons.injEq .. ▸ h
      simpa using ha

/-- Lemma: `groupMaximaF` of the empty list is empty for every fuel. -/
theorem groupMaximaF_nil : ∀ n, groupMaximaF n [] = [] := by
  intro n
  cases n <;> rfl

/-- In a parent-sorted list, nothing after the head's run shares the
head's parent. -/
theorem sorted_dropWhile_parent_ne (x : SumFile) (xs : List SumFile)
    (hs : SortedParents (x :: xs)) :
    ∀ y ∈ xs.dropWhile (fun y => y.path.parent? == x.path.parent?),
      (y.path.parent? == x.path.parent?) = false := by
  cases hr : xs.dropWhile (fun y => y.path.parent? == x.path.parent?) with
  | nil => simp
  | cons r0 rs =>
    intro y hy
    have hr0 : (r0.path.parent? == x.path.parent?) = false :=
      dropWhile_head_false _ xs r0 rs hr
    rcases List.mem_cons.mp hy with rfl | hy'
    · exact hr0
    · by_contra hyt
      have hyt' : y.path.parent? = x.path.parent? := by
        simpa using hyt
      have hsub : List.Sublist (r0 :: rs) xs := hr ▸ List.dropWhile_sublist _
      have hsr : SortedParents (r0 :: rs) := List.Pairwise.sublist hsub hs.of_cons
      have hle1 : parentLe r0.path y.path = true := List.rel_of_sorted_cons hsr y hy'
      have hle3 : parentLe y.path r0.path = true := by
        rw [parentLe_congr_left hyt']
        exact List.rel_of_sorted_cons hs r0 (hsub.subset (by simp))
      have heq := parentLe_antisymm hle1 hle3
      rw [heq, hyt'] at hr0
      simp at hr0

/-- On a parent-sorted list, the dedup fold computes the group maxima. -/
theorem fold_eq_groupMaxima : ∀ (n : Nat) (s : List SumFile), s.length ≤ n →
    SortedParents s → (s.foldl sumDedupStep []).reverse = groupMaximaF n s := by
  intro n
  induction n with
  | zero =>
    intro s hlen _
    have hnil : s = [] := List.length_eq_zero.mp (Nat.le_zero.mp hlen)
    subst hnil
    rfl
  | succ n ih =>
    intro s hlen hs
    cases s with
    | nil => rfl
    | cons x xs =>
      have hg : ∀ y ∈ xs.takeWhile (fun y => y.path.parent? == x.path.parent?),
          y.path.parent? = x.path.parent? := by
        intro y hy
        simpa using List.mem_takeWhile_imp hy
      have hsplit :=
        List.takeWhile_append_dropWhile
          (p := fun y : SumFile => y.path.parent? == x.path.parent?) (l := xs)
      simp only [List.foldl_cons]
      rw [show sumDedupStep [] x = [x] from rfl]
      conv_lhs => rw [← hsplit]
      rw [List.foldl_append, foldl_group _ x [] hg]
      cases hr : xs.dropWhile (fun y => y.path.parent? == x.path.parent?) with
      | nil =>
        simp [groupMaximaF, hr, groupMaximaF_nil]
      | cons r0 rs =>
        have hr0 : (r0.path.parent? == x.path.parent?) = false :=
          dropWhile_head_false _ xs r0 rs hr
        have hbp := bestOf_parent _ x hg
        have hne : ¬ ((bestOf x (xs.takeWhile
            (fun y => y.path.parent? == x.path.parent?))).path.parent? =
              r0.path.parent?) := by
          rw [hbp]
          intro hq
          rw [← hq] at hr0
          simp at hr0
        have hstep : sumDedupStep
            [bestOf x (xs.takeWhile (fun y => y.path.parent? == x.path.parent?))] r0 =
            r0 :: [bestOf x (xs.takeWhile (fun y => y.path.parent? == x.path.parent?))] := by
          simp [sumDedupStep, hne]
        have hlen_r : (r0 :: rs).length ≤ n := by
          have h1 : (xs.dropWhile
              (fun y => y.path.parent? == x.path.parent?)).length ≤ xs.length :=
            (List.dropWhile_sublist _).length_le
          rw [hr] at h1
          simp only [List.length_cons] at hlen h1 ⊢
          omega
        have hsr : SortedParents (r0 :: rs) :=
          List.Pairwise.sublist (hr ▸ List.dropWhile_sublist _) hs.of_cons
        have ihr := ih (r0 :: rs) hlen_r hsr
        rw [List.foldl_cons, hstep, foldl_dedup_shift, List.reverse_append]
        rw [show List.foldl sumDedupStep [r0] rs =
              List.foldl sumDedupStep [] (r0 :: rs) from rfl]
        rw [ihr]
        simp [groupMaximaF, hr]

/-- Every group maximum is an element of the list. -/
theorem groupMaximaF_subset : ∀ (n : Nat) (s : List SumFile) (sf : SumFile),
    sf ∈ groupMaximaF n s → sf ∈ s := by
  intro n
  induction n with
  | zero => intro s sf h; simp [groupMaximaF] at h
  | succ n ih =>
    intro s sf h
    cases s with
    | nil => simp [groupMaximaF] at h
    | cons x xs =>
      simp only [groupMaximaF, List.mem_cons] at h
      rcases h with h | h
      · rcases List.mem_cons.mp
            (h ▸ bestOf_mem (xs.takeWhile (fun y => y.path.parent? == x.path.parent?)) x)
            with h' | h'
        · exact List.mem_cons.mpr (Or.inl h')
        · exact List.mem_cons_of_mem x ((List.takeWhile_sublist _).subset h')
      · exact List.mem_cons_of_mem x ((List.dropWhile_sublist _).subset (ih _ sf h))

/-- Per directory, the group maxima of a parent-sorted list hold exactly
the strongest algorithm present in that directory. -/
theorem groupMaximaF_filter (d : Option String) : ∀ (n : Nat) (s : List SumFile),
    s.length ≤ n → SortedParents s →
    ((groupMaximaF n s).filter (fun sf => sf.path.parent? == d)).map SumFile.algo =
      (maxAlgo? ((s.filter (fun sf => sf.path.parent? == d)).map SumFile.algo)).toList := by
  intro n
  induction n with
  | zero =>
    intro s hlen _
    have hnil : s = [] := List.length_eq_zero.mp (Nat.le_zero.mp hlen)
    subst hnil
    rfl
  | succ n ih =>
    intro s hlen hs
    cases s with
    | nil => rfl
    | cons x xs =>
      have hg : ∀ y ∈ xs.takeWhile (fun y => y.path.parent? == x.path.parent?),
          y.path.parent? = x.path.parent? := by
        intro y hy
        simpa using List.mem_takeWhile_imp hy
      have hrne := sorted_dropWhile_parent_ne x xs hs
      have hsr : SortedParents
          (xs.dropWhile (fun y => y.path.parent? == x.path.parent?)) :=
        List.Pairwise.sublist (List.dropWhile_sublist _) hs.of_cons
      have hlenr : (xs.dropWhile (fun y => y.path.parent? == x.path.parent?)).length ≤ n := by
        have h1 := (List.dropWhile_sublist
          (fun y : SumFile => y.path.parent? == x.path.parent?) (l := xs)).length_le
        simp only [List.length_cons] at hlen
        omega
      have hsplit :=
        List.takeWhile_append_dropWhile
          (p := fun y : SumFile => y.path.parent? == x.path.parent?) (l := xs)
      have hbp := bestOf_parent _ x hg
      by_cases hd : (x.path.parent? == d) = true
      · have hdeq : x.path.parent? = d := by simpa using hd
        have hfilter_rest :
            (groupMaximaF n
              (xs.dropWhile (fun y => y.path.parent? == x.path.parent?))).filter
                (fun sf => sf.path.parent? == d) = [] := by
          rw [List.filter_eq_nil_iff]
          intro sf hsf
          have hmem := groupMaximaF_subset n _ sf hsf
          have := hrne sf hmem
          rw [hdeq] at this
          simp_all
        have hfilter_g :
            (xs.takeWhile (fun y => y.path.parent? == x.path.parent?)).filter
              (fun sf => sf.path.parent? == d) =
            xs.takeWhile (fun y => y.path.parent? == x.path.parent?) := by
          rw [List.filter_eq_self]
          intro y hy
          rw [hg y hy, hdeq]
          simp
        have hfilter_r :
            (xs.dropWhile (fun y => y.path.parent? == x.path.parent?)).filter
              (fun sf => sf.path.parent? == d) = [] := by
          rw [List.filter_eq_nil_iff]
          intro sf hsf
          have := hrne sf hsf
          rw [hdeq] at this
          simp_all
        have hbd : ((bestOf x (xs.takeWhile
            (fun y => y.path.parent? == x.path.parent?))).path.parent? == d) = true := by
          rw [hbp, hdeq]
          simp
        simp only [groupMaximaF, List.filter_cons, hbd, hfilter_rest, hd, if_pos]
        conv_rhs => rw [← hsplit]
        rw [List.filter_append, hfilter_g, hfilter_r, List.append_nil]
        simp only [List.map_cons]
        rw [maxAlgo?_cons, bestOf_algo]
        rfl
      · have hdne : (x.path.parent? == d) = false := by
          simpa using hd
        have hbd : ((bestOf x (xs.takeWhile
            (fun y => y.path.parent? == x.path.parent?))).path.parent? == d) = false := by
          rw [hbp]
          exact hdne
        have hfilter_g :
            (xs.takeWhile (fun y => y.path.parent? == x.path.parent?)).filter
              (fun sf => sf.path.parent? == d) = [] := by
          rw [List.filter_eq_nil_iff]
          intro y hy
          rw [hg y hy]
          simp_all
        simp only [groupMaximaF, List.filter_cons, hbd, hdne]
        conv_rhs => rw [← hsplit]
        rw [List.filter_append, hfilter_g, List.nil_append]
        exact ih _ hlenr hsr

/-- On all-parsable paths the algorithm extraction is a plain map. -/
theorem filterMap_sumAlgo_eq_map : ∀ (l : List FilePath),
    (∀ p ∈ l, (sumAlgoOf? p).isSome) →
    l.filterMap sumAlgoOf? = l.map (fun p => (toSumD p).algo) := by
  intro l
  induction l with
  | nil => intro _; rfl
  | cons p ps ih =>
    intro h
    have hp := sumAlgoOf?_eq_toSumD (h p (by simp))
    rw [List.filterMap_cons, hp, List.map_cons, ih (fun q hq => h q (by simp [hq]))]

/-- Lemma: `maxAlgo?` is invariant under permutation. -/
theorem maxAlgo?_perm {l1 l2 : List SumAlgo} (h : l1.Perm l2) :
    maxAlgo? l1 = maxAlgo? l2 :=
  h.foldl_eq (f := maxStep) none

/-- C6 (amended): `to_strongest_by_checksum` keeps, for every parent
directory occurring in the input, exactly one sum file, whose algorithm is
the strongest present in that directory (SHA512 > SHA256 > SHA1 > MD5),
regardless of the order in which the files are listed; the also-cited
`deduplicate_metadata` guarantees this only when no weaker of
`SHA512SUMS`/`SHA256SUMS` is listed after a stronger one, since
`is_sumfile_preferred` ignores the file already held. -/
theorem c6_strongest_per_directory (l : List FilePath)
    (hok : ∀ p ∈ l, (sumAlgoOf? p).isSome) :
    ∃ out, to_strongest_by_checksum l = .ok out ∧
      ∀ d : Option String,
        (out.filter (fun sf => sf.path.parent? == d)).map SumFile.algo =
          (maxAlgo? (dirAlgos l d)).toList := by
  have hsort := List.sorted_insertionSort (fun a b : FilePath => parentLe a b = true) l
  have hperm := List.perm_insertionSort (fun a b : FilePath => parentLe a b = true) l
  have hok' : ∀ p ∈ List.insertionSort (fun a b : FilePath => parentLe a b = true) l,
      (sumAlgoOf? p).isSome := fun p hp => hok p (hperm.subset hp)
  have hparse := parseSumFiles_eq_map _ hok'
  refine ⟨(((List.insertionSort (fun a b : FilePath => parentLe a b = true) l).map
      toSumD).foldl sumDedupStep []).reverse, ?_, ?_⟩
  · unfold to_strongest_by_checksum
    simp only [hparse, bind, Except.bind, pure, Except.pure]
  · intro d
    have hsorted_s : SortedParents
        ((List.insertionSort (fun a b : FilePath => parentLe a b = true) l).map toSumD) := by
      refine List.Pairwise.map toSumD ?_ hsort
      intro a b hab
      simpa [toSumD_path] using hab
    rw [fold_eq_groupMaxima _ _ le_rfl hsorted_s,
      groupMaximaF_filter d _ _ le_rfl hsorted_s]
    have hstep1 :
        (((List.insertionSort (fun a b : FilePath => parentLe a b = true) l).map
          toSumD).filter (fun sf => sf.path.parent? == d)).map SumFile.algo =
        dirAlgos (List.insertionSort (fun a b : FilePath => parentLe a b = true) l) d := by
      rw [List.filter_map, List.map_map]
      unfold dirAlgos
      have hfc : (List.insertionSort (fun a b : FilePath => parentLe a b = true) l).filter
            ((fun sf : SumFile => sf.path.parent? == d) ∘ toSumD) =
          (List.insertionSort (fun a b : FilePath => parentLe a b = true) l).filter
            (fun p => p.parent? == d) := by
        apply List.filter_congr
        intro p _
        simp [Function.comp, toSumD_path]
      rw [hfc, filterMap_sumAlgo_eq_map]
      · rfl
      · intro p hp
        exact hok' p (List.mem_filter.mp hp).1
    rw [hstep1]
    have hpermd : (dirAlgos (List.insertionSort
          (fun a b : FilePath => parentLe a b = true) l) d).Perm (dirAlgos l d) :=
      (hperm.filter _).filterMap sumAlgoOf?
    rw [maxAlgo?_perm hpermd]

/-- C6 counterexample: `deduplicate_metadata` on two debian-installer sum
files of the same directory listed strongest-first keeps `SHA256SUMS`,
not the strongest `SHA512SUMS` — `is_sumfile_preferred` ignores the file
already held. -/
theorem c6_dedup_keeps_weaker :
    deduplicate_metadata
        [.debianInstallerSumFile ⟨"installer-amd64/current/images/SHA512SUMS"⟩,
         .debianInstallerSumFile ⟨"installer-amd64/current/images/SHA256SUMS"⟩] =
      some [.debianInstallerSumFile ⟨"installer-amd64/current/images/SHA256SUMS"⟩] ∧
    deduplicate_metadata
        [.debianInstallerSumFile ⟨"installer-amd64/current/images/SHA512SUMS"⟩,
         .debianInstallerSumFile ⟨"installer-amd64/current/images/SHA256SUMS"⟩] ≠
      some [.debianInstallerSumFile ⟨"installer-amd64/current/images/SHA512SUMS"⟩] := by
  exact ⟨rfl, by decide⟩

/-- Witness for C6: two sum files in one directory listed strongest-first;
the collapse keeps exactly the SHA-512 one. -/
theorem c6_witness :
    (∀ p ∈ [FilePath.mk "d/SHA512SUMS", FilePath.mk "d/SHA256SUMS"],
      (sumAlgoOf? p).isSome) ∧
    (∃ out, to_strongest_by_checksum
        [FilePath.mk "d/SHA512SUMS", FilePath.mk "d/SHA256SUMS"] = .ok out ∧
      ∀ d : Option String,
        (out.filter (fun sf => sf.path.parent? == d)).map SumFile.algo =
          (maxAlgo? (dirAlgos [FilePath.mk "d/SHA512SUMS", FilePath.mk "d/SHA256SUMS"] d)).toList) :=
  ⟨by decide, c6_strongest_per_directory _ (by decide)⟩

end Aptmirs
